import Mathlib

/-!
Verification of the `hope` compiler-wrapper cache against its specification.

The development shallowly embeds the relevant parts of the Rust sources:

* `src/hope/src/main.rs` — wrapper entry point, argument classification,
  the dependency-info rewriter applied on cache pull, the pull-path mtime
  handling, and the `OutputDefn` filename function;
* `src/hope/src/build_script.rs` — the build-script impersonator;
* `src/hope/src/cache.rs` — the local cache's build-script stdout store;
* `src/cache-log/src/lib.rs` — the append-only JSON-lines event log.

Text is modelled as `List Char` (one `Line` never contains a newline), and
file-system state as association lists from file names to file records.
-/

namespace Hope

/-- A line of text: a list of characters containing no newline. -/
abbrev Line := List Char

/-- Whitespace test used by Rust's `str::trim` and `char::is_whitespace`:
the Unicode `White_Space` property (tab, line feed, vertical tab, form
feed, carriage return, space, next line, no-break space, ogham space
mark, the en-quad..hair-space range, line and paragraph separators,
narrow no-break space, medium mathematical space, ideographic space). -/
def isWs (c : Char) : Bool :=
  c = '\t' || c = '\n' || c = '\x0b' || c = '\x0c' || c = '\r' || c = ' '
    || c = '\u0085' || c = '\u00a0' || c = '\u1680'
    || ('\u2000' ≤ c && c ≤ '\u200a')
    || c = '\u2028' || c = '\u2029' || c = '\u202f' || c = '\u205f'
    || c = '\u3000'

/-- Drop leading whitespace, as the left half of Rust's `str::trim`. -/
def trimL (l : Line) : Line := l.dropWhile isWs

/-- Drop trailing whitespace, as the right half of Rust's `str::trim`. -/
def trimR (l : Line) : Line := (l.reverse.dropWhile isWs).reverse

/-- Rust's `str::trim`: drop leading and trailing whitespace. -/
def trim (l : Line) : Line := trimR (trimL l)

/-- Boolean prefix test on character lists (Rust `str::starts_with` /
`[u8]::starts_with`). -/
def startsList : List Char → List Char → Bool
  | [], _ => true
  | _ :: _, [] => false
  | p :: ps, c :: cs => p == c && startsList ps cs

/-- Substring test on character lists (Rust `str::contains`). -/
def hasSub (pat : List Char) : List Char → Bool
  | [] => startsList pat []
  | c :: cs => startsList pat (c :: cs) || hasSub pat cs

/-- The build-directory segment the rewriter filters on. -/
def buildSeg : List Char := "/build/".data

/-- Rust's `str::split_once(':')`: split at the first colon, returning the
text before and after it, or `none` when there is no colon. -/
def splitOnceColon : Line → Option (Line × Line)
  | [] => none
  | c :: rest =>
    if c = ':' then some ([], rest)
    else (splitOnceColon rest).map (fun p => (c :: p.1, p.2))

/-- Rust's `str::split` with a one-character separator: split at every
occurrence; empty pieces are kept (the caller filters them). -/
def splitCh (sep : Char) : List Char → List (List Char)
  | [] => [[]]
  | c :: r =>
    if c = sep then [] :: splitCh sep r
    else
      match splitCh sep r with
      | [] => [[c]]
      | x :: xs => (c :: x) :: xs

/-- Rust's `str::split(' ')`, as used on a data line's right-hand side. -/
def splitSp : List Char → List (List Char) := splitCh ' ' 

/-- Output of the rewriter's dependency loop: each kept dependency is written
as a space followed by the dependency (`write!(file, " {dep}")`). -/
def joinSp : List Line → Line
  | [] => []
  | d :: ds => ' ' :: (d ++ joinSp ds)

/-- One iteration of the dependency-info rewrite loop from `main`
(src/hope/src/main.rs, lines 273-325). The result is `none` when the code
fails (a trimmed non-comment line without a colon), `some none` when the
line is dropped, and `some (some out)` when the line `out` is emitted. -/
def rewriteLine (raw : Line) : Option (Option Line) :=
  let line := trim raw
  if line = [] || line.head? = some '#' then
    -- Write it out unmodified (after the trim the loop began with).
    some (some line)
  else
    match splitOnceColon line with
    | none => none
    | some (leftSide, rest) =>
      if hasSub buildSeg leftSide then
        -- Skip the whole line.
        some none
      else
        let deps := (splitSp (trim rest)).filter (fun s => !s.isEmpty)
        some (some (deps.foldl
          (fun acc dep => if hasSub buildSeg dep then acc else acc ++ ' ' :: dep)
          (leftSide ++ [':'])))

/-- The dependency-info rewrite applied to a whole text, line by line.
`none` when any line makes the loop fail. -/
def rewriteText : List Line → Option (List Line)
  | [] => some []
  | l :: ls =>
    match rewriteLine l, rewriteText ls with
    | none, _ => none
    | some _, none => none
    | some none, some rest => some rest
    | some (some out), some rest => some (out :: rest)

/-- The tokenisation of a data line's right-hand side shared by the code and
the claim: trim, split at spaces, drop empty pieces. -/
def depsOf (rest : Line) : List Line :=
  (splitSp (trim rest)).filter (fun s => !s.isEmpty)

/-- Claim C1's transform exactly as the claim states it, with no trimming:
comment lines (starting with `#`) and empty lines are emitted unmodified;
every other line is split once at the first `:`; a target containing
`/build/` drops the line; otherwise the target, a colon, and the sources
free of `/build/` are emitted in their original order. -/
def c1ClaimLine (raw : Line) : Option (Option Line) :=
  if raw = [] || raw.head? = some '#' then
    some (some raw)
  else
    match splitOnceColon raw with
    | none => none
    | some (leftSide, rest) =>
      if hasSub buildSeg leftSide then
        some none
      else
        some (some (leftSide ++ ':' ::
          joinSp ((depsOf rest).filter (fun d => !hasSub buildSeg d))))

/-- Whitespace discipline of claim C9's amended form: the only whitespace
character occurring in the line is the plain space. -/
def onlySp (l : Line) : Prop := ∀ c ∈ l, isWs c = true → c = ' '

instance (l : Line) : Decidable (onlySp l) :=
  inferInstanceAs (Decidable (∀ c ∈ l, isWs c = true → c = ' '))

/-- No character of the list is whitespace. -/
def wsFree (l : Line) : Prop := ∀ c ∈ l, isWs c = false

instance (l : Line) : Decidable (wsFree l) :=
  inferInstanceAs (Decidable (∀ c ∈ l, isWs c = false))

/-! ## Argument classification (src/hope/src/main.rs, `main`, lines 122-171) -/

/-- A codegen option as parsed by `FlagOrKvPair::from_str`: `key=value`
pairs and bare flags. -/
inductive FlagOrKvPair where
  | flag (s : String)
  | kvPair (key value : String)
deriving DecidableEq

/-- The fields of the clap-parsed `Args` that the wrapper inspects.  Clap
itself is not modelled: the parsed record is an input of the dispatch
function. -/
structure Args where
  input : Option String
  crate_types : List String
  crate_name : Option String
  emit : List String
  out_dir : Option String
  codegen_options : List FlagOrKvPair
deriving DecidableEq

/-- Components of a path, for the `index.crates.io-` prefix test on
`input_path.components()`: the non-empty slash-separated segments. -/
def pathComponents (s : String) : List (List Char) :=
  (splitCh '/' s.data).filter (fun c => !c.isEmpty)

/-- The crates.io source-tree prefix checked against each path component. -/
def cratesIoPfx : List Char := "index.crates.io-".data

/-- What the wrapper decides to do from its argv and the parsed arguments. -/
inductive Invocation where
  | buildScriptRole (calledAs : String)
  | fatal (msg : String)
  | passThrough (rustcPath : String) (passThroughArgs : List String)
  | cacheableFlow (rustcPath : String) (passThroughArgs : List String)
deriving DecidableEq

/-- The entry-point classification from `main`: exactly one argument whose
path contains `/build/` means build-script role; otherwise compiler role,
which passes through unchanged (no cache interaction) when there is no
input path or the input path has no component starting with
`index.crates.io-`. -/
def classify (argv : List String) (parsed : Args) : Invocation :=
  match argv with
  | [] => .fatal "Missing argument for path to this executable"
  | calledAs :: rest =>
    if hasSub buildSeg calledAs.data ∧ rest = [] then
      .buildScriptRole calledAs
    else
      match rest with
      | [] => .fatal "Missing argument for real `rustc` path"
      | rustcPath :: passThroughArgs =>
        match parsed.input with
        | none => .passThrough rustcPath passThroughArgs
        | some inputPath =>
          if (pathComponents inputPath).any
              (fun comp => startsList cratesIoPfx comp) then
            .cacheableFlow rustcPath passThroughArgs
          else
            .passThrough rustcPath passThroughArgs

/-! ## Output definitions and file names (src/hope/src/main.rs, lines 492-644) -/

/-- Crate types accepted by `CrateType::from_str`. -/
inductive CrateType where
  | lib | rlib | staticlib | dylib | cdylib | bin | procMacroKind
deriving DecidableEq

/-- Output types accepted by `OutputType::from_str`. -/
inductive OutputType where
  | asm | llvmBc | llvmIr | obj | metadata | link | depInfo | mir
deriving DecidableEq

/-- Output type together with the crate type for `Link`. -/
inductive OutputDefn where
  | asm | llvmBc | llvmIr | obj | metadata
  | link (ct : CrateType)
  | depInfo | mir
deriving DecidableEq

/-- The compile-time host platform selecting the `cfg(target_os)` arm of
`OutputDefn::file_name`. -/
inductive Platform where
  | linux | macos
deriving DecidableEq

/-- `OutputDefn::file_name`.  The `todo!()` arms of the Rust code
(static, dynamic and C-dynamic libraries), which panic when reached, are
modelled as `none`. -/
def OutputDefn.fileName (d : OutputDefn) (plat : Platform) (crate_unit_name : String) :
    Option String :=
  match d with
  | .asm => some (crate_unit_name ++ ".s")
  | .llvmBc => some (crate_unit_name ++ ".bc")
  | .llvmIr => some (crate_unit_name ++ ".ll")
  | .obj => some (crate_unit_name ++ ".o")
  | .metadata => some ("lib" ++ crate_unit_name ++ ".rmeta")
  | .link ct =>
    match ct with
    | .lib => some ("lib" ++ crate_unit_name ++ ".rlib")
    | .rlib => some ("lib" ++ crate_unit_name ++ ".rlib")
    | .staticlib => none
    | .dylib => none
    | .cdylib => none
    | .bin => some crate_unit_name
    | .procMacroKind =>
      match plat with
      | .linux => some ("lib" ++ crate_unit_name ++ ".so")
      | .macos => some ("lib" ++ crate_unit_name ++ ".dylib")
  | .depInfo => some (crate_unit_name ++ ".d")
  | .mir => some (crate_unit_name ++ ".mir")

/-- Claim C8's filename table exactly as the claim states it (a total
function on the kinds the claim lists; the claim omits dynamic and
C-dynamic names, modelled `none`). -/
def c8ClaimFileName (d : OutputDefn) (plat : Platform) (u : String) : Option String :=
  match d with
  | .asm => some (u ++ ".s")
  | .llvmBc => some (u ++ ".bc")
  | .llvmIr => some (u ++ ".ll")
  | .obj => some (u ++ ".o")
  | .metadata => some ("lib" ++ u ++ ".rmeta")
  | .link .lib => some ("lib" ++ u ++ ".rlib")
  | .link .rlib => some ("lib" ++ u ++ ".rlib")
  | .link .staticlib => some ("lib" ++ u ++ ".rlib")
  | .link .dylib => none
  | .link .cdylib => none
  | .link .bin => some u
  | .link .procMacroKind =>
    match plat with
    | .linux => some ("lib" ++ u ++ ".so")
    | .macos => some ("lib" ++ u ++ ".dylib")
  | .depInfo => some (u ++ ".d")
  | .mir => some (u ++ ".mir")

/-! ## Pull-path mtime handling (src/hope/src/main.rs, lines 243-335)

File-system state is an association list from file names to file records.
Modification times are abstract `Nat` values: `invokedTs` is the mtime of
the driver's `invoked.timestamp` sentinel, `now` stands for the wall-clock
instant at which the wrapper runs.  Two pieces of platform behaviour the
code relies on are made explicit:

* `std::fs::copy` preserves the source file's mtime (the macOS behaviour
  the code documents around `get_invoked_timestamp_for_crate_build_unit`);
* creating and writing a file (`File::create` + `write!`) sets its mtime
  to the current wall-clock time `now`.
-/

/-- A file: its modification time and its text content (a list of lines). -/
structure FsFile where
  mtime : Nat
  content : List Line
deriving DecidableEq

/-- A directory: an association list from file names to files. -/
def FMap := List (String × FsFile)

instance : DecidableEq FMap := inferInstanceAs (DecidableEq (List (String × FsFile)))

/-- Look a file up by name. -/
def FMap.find : FMap → String → Option FsFile
  | [], _ => none
  | (k, f) :: m, n => if k = n then some f else FMap.find m n

/-- Write a file (replacing an existing entry of the same name). -/
def FMap.set (m : FMap) (n : String) (f : FsFile) : FMap :=
  match m with
  | [] => [(n, f)]
  | (k, g) :: m => if k = n then (n, f) :: m else (k, g) :: FMap.set m n f

/-- One iteration of the `Ok` branch of the pull loop in `main`: stamp the
arrival copy's mtime with the invoked-timestamp, rewrite dependency-info
files in place (which sets their mtime to the current time `now`), then
copy the file into `out-dir` (mtime-preserving copy). -/
def pullStep (unit : String) (plat : Platform) (invokedTs now : Nat)
    (st : FMap × FMap) (defn : OutputDefn) : Except String (FMap × FMap) :=
  match defn.fileName plat unit with
  | none => .error "unimplemented output file name"
  | some fileName =>
    match st.1.find fileName with
    | none => .error "Failed to update mtime for arrival file"
    | some f =>
      let stamped : FsFile := ⟨invokedTs, f.content⟩
      if defn = OutputDefn.depInfo then
        match rewriteText stamped.content with
        | none => .error "Could not find colon in line"
        | some rewritten =>
          let rewrote : FsFile := ⟨now, rewritten⟩
          .ok (st.1.set fileName rewrote, st.2.set fileName rewrote)
      else
        .ok (st.1.set fileName stamped, st.2.set fileName stamped)

/-- The whole pull loop over the declared output definitions, threading the
arrival directory and `out-dir` states. -/
def pullLoop (unit : String) (plat : Platform) (invokedTs now : Nat)
    (defns : List OutputDefn) (st : FMap × FMap) : Except String (FMap × FMap) :=
  match defns with
  | [] => .ok st
  | d :: ds =>
    match pullStep unit plat invokedTs now st d with
    | .error e => .error e
    | .ok st2 => pullLoop unit plat invokedTs now ds st2

/-! ## Build-script impersonation (src/hope/src/build_script.rs, `run`) -/

/-- Rust's `str::rsplit_once('-')`: split at the last dash, returning the
text before and after it. -/
def rsplitOnceDash (s : String) : Option (String × String) :=
  go s.data.reverse []
where
  /-- Scan the reversed characters for the first dash, accumulating the
  suffix read so far. -/
  go : List Char → List Char → Option (String × String)
    | [], _ => none
    | c :: rest, acc =>
      if c = '-' then some (⟨rest.reverse⟩, ⟨acc⟩) else go rest (c :: acc)

/-- Rust's `Path::parent` rendered on strings: everything before the last
slash (`none` when there is no slash). -/
def parentDir (s : String) : Option String :=
  go s.data.reverse
where
  /-- Scan the reversed characters for the first slash. -/
  go : List Char → Option String
    | [] => none
    | c :: rest => if c = '/' then some ⟨rest.reverse⟩ else go rest

/-- Newline splitting for Rust's `str::lines`. -/
def splitNl : List Char → List (List Char) := splitCh '\n' 

/-- Strip one trailing carriage return, as `str::lines` does per line. -/
def stripCr (l : List Char) : List Char :=
  if l.getLast? = some '\r' then l.dropLast else l

/-- Rust's `str::lines`: split at newlines, drop the trailing empty piece
of a newline-terminated text, and strip one carriage return from each
newline-terminated piece (a carriage return at the very end of an
unterminated final line is kept). -/
def linesOf (l : List Char) : List (List Char) :=
  let parts := splitNl l
  if parts.getLast? = some [] then parts.dropLast.map stripCr
  else parts.dropLast.map stripCr ++ [parts.getLast?.getD []]

/-- Join lines with `println!`: every line is followed by a newline. -/
def joinLn : List (List Char) → List Char
  | [] => []
  | l :: ls => l ++ '\n' :: joinLn ls

/-- Result of running the real build script (`Command::output`):
captured stdout and stderr, whether it exited successfully, and its exit
code (`none` models termination by a signal). -/
structure ChildResult where
  stdout : List Char
  stderr : List Char
  success : Bool
  code : Option Int
deriving DecidableEq

/-- The build-script invocation recipe persisted as
`build-script-invocation-info.json`. -/
structure BuildScriptInvocationInfo where
  real_build_script_path : String
  env_vars : List (String × String)
  work_dir : String
deriving DecidableEq

/-- Events written through `write_log_line` by the impersonator. -/
inductive ScriptLogEvent where
  | ranBuildScriptWrapper (crate_name : String)
  | ranBuildScript (crate_name : String)
deriving DecidableEq

/-- Test for the `RanBuildScript` event kind. -/
def ScriptLogEvent.isRanBuildScript : ScriptLogEvent → Bool
  | .ranBuildScript _ => true
  | .ranBuildScriptWrapper _ => false

/-- Everything `build_script::run` reads from its surroundings: the
path it was called as, the name of `OUT_DIR`'s parent directory
(`{crate}-{hash}`), the cached stdout found for the script-hash (if any),
the `real-build-script` symlink's target, the process environment and
working directory, and — on the miss path — the real script's result. -/
structure ScriptEnv where
  calledAs : String
  outDirParentName : String
  cachedStdout : Option (List Char)
  symlinkTarget : String
  envVars : List (String × String)
  workDir : String
  child : ChildResult
deriving DecidableEq

deriving instance DecidableEq for Except

/-- The observable effects of one impersonator run. -/
structure ScriptEffects where
  stdoutOut : List Char
  logEvents : List ScriptLogEvent
  cachePut : Option (String × List Char)
  recipeWritten : Option BuildScriptInvocationInfo
  executedChildAt : Option String
  exit : Except (Option Int) Unit
deriving DecidableEq

/-- The prefix of build-script output lines suppressed on the cache-hit
path. -/
def rerunPfx : List Char := "cargo:rerun-if-".data

/-- `build_script::run` (src/hope/src/build_script.rs, lines 25-147) as a
function from its environment to its observable effects; `none` models an
`anyhow` error return. -/
def scriptRun (env : ScriptEnv) : Option ScriptEffects := do
  let buildDir ← parentDir env.calledAs
  let symlinkPath := buildDir ++ "/real-build-script"
  let (crateName, runMetadataHash) ← rsplitOnceDash env.outDirParentName
  let wrapperEvent := ScriptLogEvent.ranBuildScriptWrapper crateName
  match env.cachedStdout with
  | some cached =>
    let keptLines := (linesOf cached).filter
      (fun line => !startsList rerunPfx line)
    some
      { stdoutOut := joinLn keptLines
        logEvents := [wrapperEvent]
        cachePut := none
        recipeWritten := some
          ⟨env.symlinkTarget, env.envVars, env.workDir⟩
        executedChildAt := none
        exit := .ok () }
  | none =>
    if env.child.success then
      some
        { stdoutOut := env.child.stdout ++ env.child.stderr
          logEvents := [wrapperEvent, ScriptLogEvent.ranBuildScript crateName]
          cachePut := some (runMetadataHash, env.child.stdout)
          recipeWritten := none
          executedChildAt := some symlinkPath
          exit := .ok () }
    else
      some
        { stdoutOut := []
          logEvents := [wrapperEvent]
          cachePut := none
          recipeWritten := none
          executedChildAt := some symlinkPath
          exit := .error env.child.code }

/-! ## Push failure on the cache-miss path (src/hope/src/main.rs, lines 383-407) -/

/-- The tail of the `Err` branch of the pull match in `main`: after the
real compiler has succeeded and the outputs were copied into the departure
directory, the push result is propagated with
`.context("Failed to push to cache")?`. -/
def missBranchTail (realRustcOk : Bool) (copyOk : Bool)
    (pushResult : Except String Unit) : Except String Unit :=
  if ¬ realRustcOk then .error "real rustc failed"
  else if ¬ copyOk then .error "Failed to copy file to departure directory."
  else
    match pushResult with
    | .ok () => .ok ()
    | .error e => .error ("Failed to push to cache: " ++ e)

/-- Claim C6's behaviour as the claim states it: once the compilation has
succeeded, a push failure still yields success. -/
def c6ClaimTail (realRustcOk : Bool) (copyOk : Bool)
    (pushResult : Except String Unit) : Except String Unit :=
  if ¬ realRustcOk then .error "real rustc failed"
  else if ¬ copyOk then .error "Failed to copy file to departure directory."
  else
    match pushResult with
    | _ => .ok ()

/-! ## Build-script stdout store (src/hope/src/cache.rs, lines 263-325) -/

/-- The local cache: its root path and the files in the store root,
by name. -/
structure LocalCache where
  root : String
  files : List (String × List Char)
deriving DecidableEq

/-- Look a store file up by name. -/
def LocalCache.findFile : List (String × List Char) → String → Option (List Char)
  | [], _ => none
  | (k, c) :: m, n => if k = n then some c else LocalCache.findFile m n

/-- Create-or-truncate a store file. -/
def LocalCache.setFile (m : List (String × List Char)) (n : String) (c : List Char) :
    List (String × List Char) :=
  match m with
  | [] => [(n, c)]
  | (k, d) :: m => if k = n then (n, c) :: m else (k, d) :: LocalCache.setFile m n c

/-- `stdout_file_name` from src/hope/src/cache.rs. -/
def stdout_file_name (crate_unit_name : String) : String :=
  crate_unit_name ++ "-output.txt"

/-- `stderr_file_name` from src/hope/src/cache.rs. -/
def stderr_file_name (crate_unit_name : String) : String :=
  crate_unit_name ++ "-stderr.txt"

/-- `LocalCache::push_build_script_stdout`: create the stdout file in the
store root and write the content to it. -/
def LocalCache.push_build_script_stdout (c : LocalCache) (crate_unit_name : String)
    (content : List Char) : LocalCache :=
  ⟨c.root, LocalCache.setFile c.files (stdout_file_name crate_unit_name) content⟩

/-- `LocalCache::pull_build_script_stdout`: read the stdout file back
(`read_to_string`; content is modelled as text, so the UTF-8 decoding
step always succeeds). -/
def LocalCache.pull_build_script_stdout (c : LocalCache) (crate_unit_name : String) :
    Option (List Char) :=
  LocalCache.findFile c.files (stdout_file_name crate_unit_name)

/-- The file name claim C7 asserts the captured stdout is stored under. -/
def c7ClaimFileName (script_hash : String) : String :=
  "build-script-" ++ script_hash ++ "-stdout.txt"

/-! ## The event log (src/cache-log/src/lib.rs)

`write_log_line` serialises one `CacheLogLine` with `serde_json::to_writer`
(compact, externally tagged, fields in declaration order) and appends it
plus a newline to `cache-hacks.log`; `read_log` reads the file, splits it
into lines and parses each line with `serde_json::from_str`.  The
serialisation is modelled concretely: JSON string escaping follows
serde_json (`"`, `\`, the short control escapes, `\u00XX` for the other
control characters); `chrono::DateTime<Utc>` values are carried as their
RFC 3339 string rendering, and `f64` values as their shortest-decimal
rendering (a non-empty token of number characters), since the exact
float-to-decimal algorithm lives in serde_json, outside this repository. -/

/-- Opening brace character. -/
def lbrace : Char := '{'

/-- Closing brace character. -/
def rbrace : Char := '}'

/-- Double-quote character. -/
def qu : Char := '"'

/-- Lower-case hex digit. -/
def hexDig (n : Nat) : Char := "0123456789abcdef".data.getD n '0'

/-- Numeric value of a hex digit character. -/
def hexVal (c : Char) : Option Nat :=
  if '0' ≤ c ∧ c ≤ '9' then some (c.toNat - 48)
  else if 'a' ≤ c ∧ c ≤ 'f' then some (c.toNat - 87)
  else if 'A' ≤ c ∧ c ≤ 'F' then some (c.toNat - 55)
  else none

/-- serde_json's escaping of one character inside a JSON string. -/
def escChar (c : Char) : List Char :=
  if c = qu then ['\\', '"']
  else if c = '\\' then ['\\', '\\']
  else if c = '\x08' then ['\\', 'b']
  else if c = '\t' then ['\\', 't']
  else if c = '\n' then ['\\', 'n']
  else if c = '\x0c' then ['\\', 'f']
  else if c = '\r' then ['\\', 'r']
  else if c.toNat < 32 then
    ['\\', 'u', '0', '0', hexDig (c.toNat / 16), hexDig (c.toNat % 16)]
  else [c]

/-- serde_json's escaping of a whole string body. -/
def escStr (s : List Char) : List Char := (s.map escChar).flatten

/-- An `f64` as serde_json serialises it: a finite value carries its
shortest-decimal rendering (the float printer lives in serde_json), while
NaN and the infinities have no JSON number representation and serde_json
writes `null` for them. -/
inductive F64Val where
  | finite (render : String)
  | nonFinite
deriving DecidableEq

/-- serde_json's token for an `f64` value: the decimal rendering of a
finite value, the literal `null` for NaN or an infinity. -/
def durTok : F64Val → List Char
  | .finite s => s.data
  | .nonFinite => "null".data

/-- `PullCrateOutputsEvent` (src/cache-log/src/lib.rs, lines 20-30).
`copied_at` carries the RFC 3339 rendering of the `chrono` timestamp and
`duration_secs` the `f64`. -/
structure PullCrateOutputsEvent where
  crate_unit_name : String
  copied_at : String
  copied_from : String
  did_mangle_on_pull : Bool
  duration_secs : F64Val
deriving DecidableEq

/-- `PushCrateOutputsEvent` (lines 33-43). -/
structure PushCrateOutputsEvent where
  crate_unit_name : String
  copied_at : String
  copied_from : String
  did_mangle_on_push : Bool
  duration_secs : F64Val
deriving DecidableEq

/-- `PullBuildScriptOutputsEvent` (lines 46-56). -/
structure PullBuildScriptOutputsEvent where
  crate_unit_name : String
  copied_at : String
  copied_from : String
  did_mangle_on_pull : Bool
  duration_secs : F64Val
deriving DecidableEq

/-- `PushBuildScriptOutputsEvent` (lines 59-69). -/
structure PushBuildScriptOutputsEvent where
  crate_unit_name : String
  copied_at : String
  copied_from : String
  did_mangle_on_push : Bool
  duration_secs : F64Val
deriving DecidableEq

/-- `CacheLogLine` (lines 12-17). -/
inductive CacheLogLine where
  | pulledCrateOutputs (ev : PullCrateOutputsEvent)
  | pushedCrateOutputs (ev : PushCrateOutputsEvent)
  | pulledBuildScriptOutputs (ev : PullBuildScriptOutputsEvent)
  | pushedBuildScriptOutputs (ev : PushBuildScriptOutputsEvent)
deriving DecidableEq

/-- The opening of one externally tagged variant:
an opening brace, the quoted tag, a colon, and the inner opening brace. -/
def tagOpen (tag : String) : List Char :=
  lbrace :: qu :: tag.data ++ [qu, ':', lbrace]

/-- The first field key of a copy event, with its opening quote. -/
def fieldLitName : List Char := qu :: "crate_unit_name".data ++ [qu, ':', qu]

/-- The `copied_at` field key, between two string values. -/
def fieldLitAt : List Char := ',' :: qu :: "copied_at".data ++ [qu, ':', qu]

/-- The `copied_from` field key. -/
def fieldLitFrom : List Char := ',' :: qu :: "copied_from".data ++ [qu, ':', qu]

/-- A mangle-flag field key (the key name differs between pull and push
events). -/
def fieldLitMangle (key : String) : List Char :=
  ',' :: qu :: key.data ++ [qu, ':']

/-- The `duration_secs` field key. -/
def fieldLitDur : List Char := ',' :: qu :: "duration_secs".data ++ [qu, ':']

/-- JSON rendering of a boolean. -/
def boolTok (b : Bool) : List Char := if b then "true".data else "false".data

/-- The serde_json encoding of the five fields of a copy event. -/
def encCopyFields (name at_ from_ : String) (mangleKey : String) (mangle : Bool)
    (dur : F64Val) : List Char :=
  fieldLitName ++ escStr name.data ++ [qu]
    ++ fieldLitAt ++ escStr at_.data ++ [qu]
    ++ fieldLitFrom ++ escStr from_.data ++ [qu]
    ++ fieldLitMangle mangleKey ++ boolTok mangle
    ++ fieldLitDur ++ durTok dur
    ++ [rbrace, rbrace]

/-- `serde_json::to_writer` on one `CacheLogLine`. -/
def encodeLogLine : CacheLogLine → List Char
  | .pulledCrateOutputs ev =>
    tagOpen "PulledCrateOutputs" ++ encCopyFields ev.crate_unit_name ev.copied_at
      ev.copied_from "did_mangle_on_pull" ev.did_mangle_on_pull ev.duration_secs
  | .pushedCrateOutputs ev =>
    tagOpen "PushedCrateOutputs" ++ encCopyFields ev.crate_unit_name ev.copied_at
      ev.copied_from "did_mangle_on_push" ev.did_mangle_on_push ev.duration_secs
  | .pulledBuildScriptOutputs ev =>
    tagOpen "PulledBuildScriptOutputs" ++ encCopyFields ev.crate_unit_name ev.copied_at
      ev.copied_from "did_mangle_on_pull" ev.did_mangle_on_pull ev.duration_secs
  | .pushedBuildScriptOutputs ev =>
    tagOpen "PushedBuildScriptOutputs" ++ encCopyFields ev.crate_unit_name ev.copied_at
      ev.copied_from "did_mangle_on_push" ev.did_mangle_on_push ev.duration_secs

/-- Strip an expected literal from the front of the input. -/
def stripLit : List Char → List Char → Option (List Char)
  | [], l => some l
  | _ :: _, [] => none
  | p :: ps, c :: cs => if p = c then stripLit ps cs else none

/-- Parse a JSON string body up to and including its closing quote,
undoing serde_json's escaping. -/
def parseStrBody : List Char → Option (List Char × List Char)
  | [] => none
  | c :: rest =>
    if c = qu then some ([], rest)
    else if c = '\\' then
      match rest with
      | [] => none
      | e :: rest2 =>
        if e = qu then (parseStrBody rest2).map (fun p => (qu :: p.1, p.2))
        else if e = '\\' then (parseStrBody rest2).map (fun p => ('\\' :: p.1, p.2))
        else if e = 'b' then (parseStrBody rest2).map (fun p => ('\x08' :: p.1, p.2))
        else if e = 't' then (parseStrBody rest2).map (fun p => ('\t' :: p.1, p.2))
        else if e = 'n' then (parseStrBody rest2).map (fun p => ('\n' :: p.1, p.2))
        else if e = 'f' then (parseStrBody rest2).map (fun p => ('\x0c' :: p.1, p.2))
        else if e = 'r' then (parseStrBody rest2).map (fun p => ('\r' :: p.1, p.2))
        else if e = 'u' then
          match rest2 with
          | h1 :: h2 :: h3 :: h4 :: rest3 =>
            match hexVal h1, hexVal h2, hexVal h3, hexVal h4 with
            | some a, some b, some c3, some d =>
              (parseStrBody rest3).map
                (fun p => (Char.ofNat (((a * 16 + b) * 16 + c3) * 16 + d) :: p.1, p.2))
            | _, _, _, _ => none
          | _ => none
        else none
    else (parseStrBody rest).map (fun p => (c :: p.1, p.2))

/-- Parse a JSON boolean token. -/
def parseBoolTok (l : List Char) : Option (Bool × List Char) :=
  match stripLit "true".data l with
  | some r => some (true, r)
  | none =>
    match stripLit "false".data l with
    | some r => some (false, r)
    | none => none

/-- Characters that may appear in a JSON number token. -/
def isNumChar (c : Char) : Bool :=
  ('0' ≤ c && c ≤ '9') || c = '.' || c = '-' || c = '+' || c = 'e' || c = 'E'

/-- Parse a JSON number token (kept as its decimal rendering). -/
def parseNumTok (l : List Char) : Option (String × List Char) :=
  let tok := l.takeWhile isNumChar
  if tok.isEmpty then none else some (⟨tok⟩, l.dropWhile isNumChar)

/-- Parse the five fields of a copy event plus the two closing braces,
requiring that nothing follows (as `serde_json::from_str` does). -/
def parseCopyFields (mangleKey : String) (l : List Char) :
    Option (String × String × String × Bool × F64Val) :=
  match stripLit fieldLitName l with
  | none => none
  | some r1 =>
    match parseStrBody r1 with
    | none => none
    | some (name, r2) =>
      match stripLit fieldLitAt r2 with
      | none => none
      | some r3 =>
        match parseStrBody r3 with
        | none => none
        | some (at_, r4) =>
          match stripLit fieldLitFrom r4 with
          | none => none
          | some r5 =>
            match parseStrBody r5 with
            | none => none
            | some (from_, r6) =>
              match stripLit (fieldLitMangle mangleKey) r6 with
              | none => none
              | some r7 =>
                match parseBoolTok r7 with
                | none => none
                | some (mangle, r8) =>
                  match stripLit fieldLitDur r8 with
                  | none => none
                  | some r9 =>
                    match parseNumTok r9 with
                    | none => none
                    | some (dur, r10) =>
                      match stripLit [rbrace, rbrace] r10 with
                      | none => none
                      | some r11 =>
                        if r11.isEmpty then
                          some (⟨name⟩, ⟨at_⟩, ⟨from_⟩, mangle, F64Val.finite dur)
                        else none

/-- `serde_json::from_str::<CacheLogLine>` restricted to the compact
encodings `to_writer` produces: dispatch on the variant tag, then parse
the copy-event fields. -/
def parseLogLine (l : List Char) : Option CacheLogLine :=
  match stripLit (tagOpen "PulledCrateOutputs") l with
  | some r =>
    (parseCopyFields "did_mangle_on_pull" r).map
      (fun f => .pulledCrateOutputs ⟨f.1, f.2.1, f.2.2.1, f.2.2.2.1, f.2.2.2.2⟩)
  | none =>
  match stripLit (tagOpen "PushedCrateOutputs") l with
  | some r =>
    (parseCopyFields "did_mangle_on_push" r).map
      (fun f => .pushedCrateOutputs ⟨f.1, f.2.1, f.2.2.1, f.2.2.2.1, f.2.2.2.2⟩)
  | none =>
  match stripLit (tagOpen "PulledBuildScriptOutputs") l with
  | some r =>
    (parseCopyFields "did_mangle_on_pull" r).map
      (fun f => .pulledBuildScriptOutputs ⟨f.1, f.2.1, f.2.2.1, f.2.2.2.1, f.2.2.2.2⟩)
  | none =>
  match stripLit (tagOpen "PushedBuildScriptOutputs") l with
  | some r =>
    (parseCopyFields "did_mangle_on_push" r).map
      (fun f => .pushedBuildScriptOutputs ⟨f.1, f.2.1, f.2.2.1, f.2.2.2.1, f.2.2.2.2⟩)
  | none => none

/-- `write_log_line` (src/cache-log/src/lib.rs, lines 71-82): append the
serialised line and a newline to the log file's content. -/
def writeLogLine (file : List Char) (e : CacheLogLine) : List Char :=
  file ++ encodeLogLine e ++ ['\n']

/-- The `read_log` loop body: parse each line, failing on the first line
that does not parse. -/
def readLines : List (List Char) → Option (List CacheLogLine)
  | [] => some []
  | l :: ls =>
    match parseLogLine l, readLines ls with
    | some e, some es => some (e :: es)
    | _, _ => none

/-- `read_log` (lines 84-96): split the file into lines and parse each. -/
def readLog (file : List Char) : Option (List CacheLogLine) :=
  readLines (linesOf file)

/-- Well-formedness of the `f64` carried by an event: the value is
finite and its shortest-decimal rendering is a non-empty token of number
characters (every rendering serde_json produces for a finite value
satisfies this).  A non-finite value is never well-formed: serde_json
writes `null` for it, which `read_log` cannot parse back into an `f64`. -/
def durWf : F64Val → Prop
  | .finite s => ¬ s.data.isEmpty ∧ ∀ c ∈ s.data, isNumChar c = true
  | .nonFinite => False

instance : ∀ v, Decidable (durWf v)
  | .finite _ => inferInstanceAs (Decidable (And _ _))
  | .nonFinite => inferInstanceAs (Decidable False)

/-- Well-formedness of one log event (its duration rendering). -/
def logWf : CacheLogLine → Prop
  | .pulledCrateOutputs ev => durWf ev.duration_secs
  | .pushedCrateOutputs ev => durWf ev.duration_secs
  | .pulledBuildScriptOutputs ev => durWf ev.duration_secs
  | .pushedBuildScriptOutputs ev => durWf ev.duration_secs

instance : ∀ e, Decidable (logWf e) := by
  intro e
  cases e <;> exact inferInstanceAs (Decidable (durWf _))

/-! ## Supporting lemmas -/

/-- The dependency loop's fold writes exactly the dependencies free of the
build segment, each preceded by a space, after the initial buffer. -/
theorem foldl_dep_join (deps : List Line) (init : Line) :
    deps.foldl (fun acc dep => if hasSub buildSeg dep then acc else acc ++ ' ' :: dep) init
      = init ++ joinSp (deps.filter (fun d => !hasSub buildSeg d)) := by
  induction deps generalizing init with
  | nil => simp [joinSp]
  | cons d ds ih =>
    by_cases h : hasSub buildSeg d
    · simp [List.foldl_cons, h, ih]
    · simp [List.foldl_cons, h, ih, joinSp]

/-! ## Claim theorems -/

/-- C1 (counterexample).  On the comment line `"# c "` (trailing space) the
rewriter emits the trimmed line `"# c"`, whereas the claim demands comment
lines be emitted unmodified: the code and the claim's transform differ. -/
theorem c1_rewriter_counterexample :
    rewriteLine "# c ".data = some (some "# c".data)
      ∧ c1ClaimLine "# c ".data = some (some "# c ".data)
      ∧ rewriteLine "# c ".data ≠ c1ClaimLine "# c ".data := by
  refine ⟨by decide, by decide, by decide⟩

/-- The rewriter's per-line transform equals the claim's transform applied
to the trimmed line (shared between C1 and C9). -/
theorem rewrite_line_spec (raw : Line) :
    rewriteLine raw = c1ClaimLine (trim raw) := by
  simp only [rewriteLine, c1ClaimLine]
  split
  · rfl
  · cases h : splitOnceColon (trim raw) with
    | none => rfl
    | some p =>
      obtain ⟨l, r⟩ := p
      split
      · rfl
      · rw [foldl_dep_join]
        simp [depsOf, List.append_assoc]

/-- C1 (amended).  The rewriter processes each line exactly as the claim
describes it, once the line is first trimmed of surrounding whitespace:
the code's per-line transform coincides with the claim's transform applied
to the trimmed line. -/
theorem c1_rewriter_amended (raw : Line) :
    rewriteLine raw = c1ClaimLine (trim raw) :=
  rewrite_line_spec raw

/-- Reading a store file back after writing it returns the written
content. -/
theorem findFile_setFile (m : List (String × List Char)) (n : String) (c : List Char) :
    LocalCache.findFile (LocalCache.setFile m n c) n = some c := by
  induction m with
  | nil => simp [LocalCache.setFile, LocalCache.findFile]
  | cons kv m ih =>
    obtain ⟨k, d⟩ := kv
    by_cases h : k = n
    · simp [LocalCache.setFile, LocalCache.findFile, h]
    · simp [LocalCache.setFile, LocalCache.findFile, h, ih]

/-- C2 (code_bug).  On the cache-pull path the dependency-info file is
rewritten *after* its mtime was stamped with the invoked-timestamp;
creating and writing the file sets its mtime to the wall clock, and the
copy into `out-dir` carries that mtime along.  With invoked-timestamp 10
and wall clock 99, the `u.d` file lands in `out-dir` with mtime 99 while
every other pulled file (here the `.rmeta`) gets the invoked-timestamp 10
— contradicting the claim that every file placed in `out-dir` is stamped
with the invoked-timestamp. -/
theorem c2_depinfo_mtime_bug :
    pullLoop "u" .linux 10 99 [.depInfo, .metadata]
        ([("u.d", ⟨5, ["a: b".data]⟩), ("libu.rmeta", ⟨5, []⟩)], [])
      = .ok ([("u.d", ⟨99, ["a: b".data]⟩), ("libu.rmeta", ⟨10, []⟩)],
             [("u.d", ⟨99, ["a: b".data]⟩), ("libu.rmeta", ⟨10, []⟩)])
      ∧ (99 : Nat) ≠ 10 := by
  refine ⟨by decide, by decide⟩

/-- C6 (counterexample).  When the push to the store fails after a
successful compilation, `main` propagates the failure with
`.context("Failed to push to cache")?`, so the wrapper itself fails —
unlike the claim, which demands the wrapper still return success. -/
theorem c6_push_failure_counterexample :
    missBranchTail true true (.error "io") = .error "Failed to push to cache: io"
      ∧ c6ClaimTail true true (.error "io") = .ok ()
      ∧ missBranchTail true true (.error "io") ≠ c6ClaimTail true true (.error "io") := by
  refine ⟨rfl, rfl, by decide⟩

/-- C6 (amended).  After the real compiler has run successfully on the
cache-miss path, the wrapper succeeds exactly when the push succeeded: a
push failure becomes the wrapper's own failure, wrapped in the context
message `Failed to push to cache`. -/
theorem c6_push_failure_amended (e : String) :
    missBranchTail true true (.ok ()) = .ok ()
      ∧ missBranchTail true true (.error e) = .error ("Failed to push to cache: " ++ e) :=
  ⟨rfl, rfl⟩

/-- C7 (counterexample).  The stdout store file name produced by
`stdout_file_name` is `{key}-output.txt`, not the
`build-script-{key}-stdout.txt` the claim states. -/
theorem c7_stdout_file_name_counterexample :
    stdout_file_name "abc" = "abc-output.txt"
      ∧ c7ClaimFileName "abc" = "build-script-abc-stdout.txt"
      ∧ stdout_file_name "abc" ≠ c7ClaimFileName "abc" := by
  refine ⟨rfl, rfl, by decide⟩

/-- C7 (amended).  Captured build-script stdout is stored in the cache
root under `{key}-output.txt` by `push_build_script_stdout`, and
`pull_build_script_stdout` reads exactly that file, so a store followed
by a read under the same key returns the stored content. -/
theorem c7_stdout_store_amended (c : LocalCache) (key : String) (content : List Char) :
    (c.push_build_script_stdout key content).pull_build_script_stdout key = some content
      ∧ stdout_file_name key = key ++ "-output.txt" := by
  refine ⟨?_, rfl⟩
  simp only [LocalCache.push_build_script_stdout, LocalCache.pull_build_script_stdout]
  exact findFile_setFile _ _ _

/-- C8 (counterexample).  `OutputDefn::file_name` is not total: the
static-library link output hits a `todo!()` panic (modelled `none`),
whereas the claim's table produces `lib{unit}.rlib` for it. -/
theorem c8_file_name_counterexample :
    (OutputDefn.link .staticlib).fileName .linux "x" = none
      ∧ c8ClaimFileName (.link .staticlib) .linux "x" = some "libx.rlib"
      ∧ (OutputDefn.link .staticlib).fileName .linux "x"
          ≠ c8ClaimFileName (.link .staticlib) .linux "x" := by
  refine ⟨rfl, rfl, by decide⟩

/-- C8 (amended).  Away from the unimplemented link outputs (static,
dynamic, C-dynamic libraries, whose arms are `todo!()` panics), the
filename function is the pure function of the unit name, the output-defn
and the platform that the claim tabulates: `{unit}.s`, `{unit}.bc`,
`{unit}.ll`, `{unit}.o`, `lib{unit}.rmeta`, `{unit}.d`, `{unit}.mir`,
`lib{unit}.rlib` for library outputs, `{unit}` for binaries, and
`lib{unit}.so` / `lib{unit}.dylib` for procedural macros on Linux-like /
Darwin-like hosts. -/
theorem c8_file_name_amended (d : OutputDefn) (plat : Platform) (u : String)
    (h1 : d ≠ .link .staticlib) (h2 : d ≠ .link .dylib) (h3 : d ≠ .link .cdylib) :
    d.fileName plat u = c8ClaimFileName d plat u := by
  cases d with
  | link ct =>
    cases ct with
    | staticlib => exact absurd rfl h1
    | dylib => exact absurd rfl h2
    | cdylib => exact absurd rfl h3
    | procMacroKind => cases plat <;> rfl
    | lib => rfl
    | rlib => rfl
    | bin => rfl
  | asm => rfl
  | llvmBc => rfl
  | llvmIr => rfl
  | obj => rfl
  | metadata => rfl
  | depInfo => rfl
  | mir => rfl

/-- C8 (witness). -/
theorem c8_file_name_witness :
    (OutputDefn.link .procMacroKind).fileName .linux "x"
      = c8ClaimFileName (.link .procMacroKind) .linux "x" :=
  c8_file_name_amended (.link .procMacroKind) .linux "x"
    (by decide) (by decide) (by decide)

/-- C5.  Classification: argv of exactly one element whose path contains
`/build/` enters the build-script role; one element without the segment is
a fatal missing-rustc-path error; with at least two elements the wrapper
is in compiler role (never the build-script role) and passes through to
the real compiler, with the pass-through arguments unchanged and no cache
interaction, whenever the parsed arguments have no input path or the
input path has no component starting with `index.crates.io-`. -/
theorem c5_classification :
    (∀ calledAs parsed, hasSub buildSeg calledAs.data = true →
      classify [calledAs] parsed = .buildScriptRole calledAs)
    ∧ (∀ calledAs parsed, hasSub buildSeg calledAs.data = false →
      classify [calledAs] parsed = .fatal "Missing argument for real `rustc` path")
    ∧ (∀ calledAs r rest parsed s,
      classify (calledAs :: r :: rest) parsed ≠ .buildScriptRole s)
    ∧ (∀ calledAs r rest parsed, parsed.input = none →
      classify (calledAs :: r :: rest) parsed = .passThrough r rest)
    ∧ (∀ calledAs r rest parsed p, parsed.input = some p →
      (pathComponents p).any (fun comp => startsList cratesIoPfx comp) = false →
      classify (calledAs :: r :: rest) parsed = .passThrough r rest) := by
  refine ⟨?_, ?_, ?_, ?_, ?_⟩
  · intro calledAs parsed h
    simp [classify, h]
  · intro calledAs parsed h
    simp [classify, h]
  · intro calledAs r rest parsed s
    simp only [classify]
    rw [if_neg (by simp)]
    cases h : parsed.input with
    | none => simp
    | some p =>
      simp only [h]
      split_ifs <;> simp
  · intro calledAs r rest parsed h
    simp only [classify]
    rw [if_neg (by simp)]
    simp [h]
  · intro calledAs r rest parsed p h hc
    simp only [classify]
    rw [if_neg (by simp)]
    simp [h, hc]

/-- C5 (witness). -/
theorem c5_classification_witness :
    classify ["/t/debug/build/foo-1a2b/build_script_build"] ⟨none, [], none, [], none, []⟩
        = .buildScriptRole "/t/debug/build/foo-1a2b/build_script_build"
      ∧ classify ["hope", "/usr/bin/rustc", "--version"] ⟨none, [], none, [], none, []⟩
        = .passThrough "/usr/bin/rustc" ["--version"]
      ∧ classify ["hope", "/usr/bin/rustc", "src/lib.rs"]
          ⟨some "src/lib.rs", [], none, [], none, []⟩
        = .passThrough "/usr/bin/rustc" ["src/lib.rs"] := by
  refine ⟨?_, ?_, ?_⟩
  · exact c5_classification.1 _ _ (by decide)
  · exact c5_classification.2.2.2.1 _ _ _ _ rfl
  · exact c5_classification.2.2.2.2 _ _ _ _ _ rfl (by decide)

/-- Reconstruction property of `rsplit_once('-')`'s scanning loop. -/
theorem rsplitGo_eq (l : List Char) (acc : List Char) (a b : String)
    (h : rsplitOnceDash.go l acc = some (a, b)) :
    a.data ++ '-' :: b.data = l.reverse ++ acc ∧ ('-' ∉ acc → '-' ∉ b.data) := by
  induction l generalizing acc with
  | nil => simp [rsplitOnceDash.go] at h
  | cons c rest ih =>
    by_cases hc : c = '-'
    · subst hc
      simp only [rsplitOnceDash.go, if_true, Option.some_inj] at h
      obtain ⟨ha, hb⟩ := Prod.mk.injEq _ _ _ _ ▸ h
      constructor
      · rw [← ha, ← hb]
        simp
      · intro hacc
        rw [← hb]
        exact hacc
    · simp only [rsplitOnceDash.go, if_neg hc] at h
      obtain ⟨h1, h2⟩ := ih (c :: acc) h
      constructor
      · rw [h1]
        simp
      · intro hacc
        refine h2 ?_
        intro hmem
        rcases List.mem_cons.mp hmem with h3 | h3
        · exact hc h3.symm
        · exact hacc h3

/-- `rsplit_once('-')` splits the string at its last dash: the two parts
joined by a dash give back the input, and the right part contains no
dash. -/
theorem rsplitOnceDash_eq (s a b : String) (h : rsplitOnceDash s = some (a, b)) :
    a ++ "-" ++ b = s ∧ '-' ∉ b.data := by
  have hg := rsplitGo_eq s.data.reverse [] a b h
  refine ⟨?_, hg.2 (by simp)⟩
  have hd : a.data ++ '-' :: b.data = s.data := by
    have := hg.1
    simpa using this
  apply String.ext
  simpa [String.data_append] using hd

/-- C3.  On the cache-hit path the impersonator writes to its own stdout
exactly the lines of the cached stdout that do not begin with
`cargo:rerun-if-`, each followed by a newline, in their original order;
every line beginning with the prefix is omitted.  It runs no child
process, pushes nothing to the cache, records the wrapper event, and
persists the invocation recipe. -/
theorem c3_cached_stdout_filter (calledAs parentName symTgt wd : String)
    (evs : List (String × String)) (child : ChildResult) (s : List Char)
    (crate hash : String) (bdir : String)
    (hdir : parentDir calledAs = some bdir)
    (hsplit : rsplitOnceDash parentName = some (crate, hash)) :
    scriptRun ⟨calledAs, parentName, some s, symTgt, evs, wd, child⟩
      = some ⟨joinLn ((linesOf s).filter (fun l => !startsList rerunPfx l)),
              [.ranBuildScriptWrapper crate], none,
              some ⟨symTgt, evs, wd⟩, none, .ok ()⟩
      ∧ (∀ l ∈ linesOf s, startsList rerunPfx l = true →
          l ∉ (linesOf s).filter (fun l2 => !startsList rerunPfx l2)) := by
  constructor
  · simp [scriptRun, hdir, hsplit]
  · intro l _ hpre hmem
    have h2 := (List.mem_filter.mp hmem).2
    simp [hpre] at h2

/-- C3 (witness). -/
theorem c3_cached_stdout_filter_witness :
    scriptRun ⟨"/t/debug/build/foo-9f/build_script_build", "foo-1a2b",
        some "cargo:rustc-cfg=a\ncargo:rerun-if-changed=x\ncargo:warning=w\n".data,
        "/t/real", [("OUT_DIR", "/o")], "/w", ⟨[], [], true, some 0⟩⟩
      = some ⟨"cargo:rustc-cfg=a\ncargo:warning=w\n".data,
              [.ranBuildScriptWrapper "foo"], none,
              some ⟨"/t/real", [("OUT_DIR", "/o")], "/w"⟩, none, .ok ()⟩ := by
  have h := (c3_cached_stdout_filter "/t/debug/build/foo-9f/build_script_build" "foo-1a2b"
    "/t/real" "/w" [("OUT_DIR", "/o")] ⟨[], [], true, some 0⟩
    "cargo:rustc-cfg=a\ncargo:rerun-if-changed=x\ncargo:warning=w\n".data
    "foo" "1a2b" "/t/debug/build/foo-9f" (by decide) (by decide)).1
  rw [h]
  decide

/-- C4.  On the cache-miss path with a successful child, the impersonator
executes the real build script through the `real-build-script` symlink in
the directory it was called from, forwards the child's captured stdout and
stderr to its own stdout, records exactly one `RanBuildScript` event, and
stores the captured stdout keyed by the script-hash taken from the part of
`OUT_DIR`'s parent directory name after its last dash
(`{crate}-{hash}`). -/
theorem c4_script_miss (calledAs parentName symTgt wd : String)
    (evs : List (String × String)) (co ce : List Char) (code : Option Int)
    (crate hash : String) (bdir : String)
    (hdir : parentDir calledAs = some bdir)
    (hsplit : rsplitOnceDash parentName = some (crate, hash)) :
    scriptRun ⟨calledAs, parentName, none, symTgt, evs, wd, ⟨co, ce, true, code⟩⟩
      = some ⟨co ++ ce,
              [.ranBuildScriptWrapper crate, .ranBuildScript crate],
              some (hash, co), none,
              some (bdir ++ "/real-build-script"), .ok ()⟩
      ∧ crate ++ "-" ++ hash = parentName
      ∧ '-' ∉ hash.data
      ∧ [ScriptLogEvent.ranBuildScriptWrapper crate,
          ScriptLogEvent.ranBuildScript crate].countP
          ScriptLogEvent.isRanBuildScript = 1 := by
  have hr := rsplitOnceDash_eq parentName crate hash hsplit
  refine ⟨?_, hr.1, hr.2, by simp [List.countP, List.countP.go, ScriptLogEvent.isRanBuildScript]⟩
  simp [scriptRun, hdir, hsplit]

/-- C4 (witness). -/
theorem c4_script_miss_witness :
    scriptRun ⟨"/t/debug/build/foo-9f/build_script_build", "foo-1a2b", none,
        "/t/real", [("OUT_DIR", "/o")], "/w",
        ⟨"cargo:rustc-cfg=a\n".data, "warn\n".data, true, some 0⟩⟩
      = some ⟨"cargo:rustc-cfg=a\nwarn\n".data,
              [.ranBuildScriptWrapper "foo", .ranBuildScript "foo"],
              some ("1a2b", "cargo:rustc-cfg=a\n".data), none,
              some "/t/debug/build/foo-9f/real-build-script", .ok ()⟩
      ∧ "foo" ++ "-" ++ "1a2b" = "foo-1a2b" := by
  have h := c4_script_miss "/t/debug/build/foo-9f/build_script_build" "foo-1a2b"
    "/t/real" "/w" [("OUT_DIR", "/o")] "cargo:rustc-cfg=a\n".data "warn\n".data
    (some 0) "foo" "1a2b" "/t/debug/build/foo-9f" (by decide) (by decide)
  refine ⟨?_, h.2.1⟩
  rw [h.1]
  decide

/-! ## Lemmas about trimming and splitting, towards C9 -/

/-- A list whose head does not satisfy the predicate is unchanged by
`dropWhile`. -/
theorem dropWhile_eq_self_of_head (l : List Char) (p : Char → Bool)
    (h : ∀ c, l.head? = some c → p c = false) : l.dropWhile p = l := by
  cases l with
  | nil => rfl
  | cons c r => simp [List.dropWhile_cons, h c rfl]

/-- The head of a `dropWhile` result does not satisfy the predicate. -/
theorem head_dropWhile_false (l : List Char) (p : Char → Bool) (c : Char)
    (h : (l.dropWhile p).head? = some c) : p c = false := by
  induction l with
  | nil => simp [List.dropWhile] at h
  | cons a r ih =>
    by_cases hp : p a
    · rw [List.dropWhile_cons_of_pos hp] at h
      exact ih h
    · rw [List.dropWhile_cons_of_neg hp] at h
      cases h
      simpa using hp

/-- A line whose head is not whitespace is unchanged by left trimming. -/
theorem trimL_eq_self (l : Line) (h : ∀ c, l.head? = some c → isWs c = false) :
    trimL l = l :=
  dropWhile_eq_self_of_head l isWs h

/-- A line whose last character is not whitespace is unchanged by right
trimming. -/
theorem trimR_eq_self (l : Line) (h : ∀ c, l.getLast? = some c → isWs c = false) :
    trimR l = l := by
  unfold trimR
  rw [dropWhile_eq_self_of_head _ _ (fun c hc => h c (by rwa [List.head?_reverse] at hc)),
    List.reverse_reverse]

/-- A line with non-whitespace head and last character is unchanged by
trimming. -/
theorem trim_eq_self (l : Line)
    (hh : ∀ c, l.head? = some c → isWs c = false)
    (hl : ∀ c, l.getLast? = some c → isWs c = false) : trim l = l := by
  unfold trim
  rw [trimL_eq_self l hh, trimR_eq_self l hl]

/-- Right trimming yields a prefix of the line. -/
theorem trimR_prefix (l : Line) : ∃ t, trimR l ++ t = l := by
  obtain ⟨s, hs⟩ := List.dropWhile_suffix (l := l.reverse) isWs
  refine ⟨s.reverse, ?_⟩
  have := congrArg List.reverse hs
  simpa [trimR] using this

/-- The head of a trimmed line is not whitespace. -/
theorem head_trim_false (l : Line) (c : Char) (h : (trim l).head? = some c) :
    isWs c = false := by
  have h' : (trimR (trimL l)).head? = some c := h
  obtain ⟨t, ht⟩ := trimR_prefix (trimL l)
  have hh : (trimL l).head? = some c := by
    rw [← ht]
    cases hc : trimR (trimL l) with
    | nil => rw [hc] at h'; cases h'
    | cons d r =>
      rw [hc] at h'
      simpa using h'
  exact head_dropWhile_false l isWs c hh

/-- The last character of a trimmed line is not whitespace. -/
theorem getLast_trim_false (l : Line) (c : Char) (h : (trim l).getLast? = some c) :
    isWs c = false := by
  unfold trim trimR at h
  rw [List.getLast?_reverse] at h
  exact head_dropWhile_false _ isWs c h

/-- Trimming is idempotent. -/
theorem trim_idem (l : Line) : trim (trim l) = trim l :=
  trim_eq_self (trim l) (head_trim_false l) (getLast_trim_false l)

/-- Every character of a trimmed line is a character of the line. -/
theorem mem_trim (l : Line) (c : Char) (h : c ∈ trim l) : c ∈ l := by
  obtain ⟨t, ht⟩ := trimR_prefix (trimL l)
  have h1 : c ∈ trimL l := by
    rw [← ht]
    exact List.mem_append_left t h
  obtain ⟨s, hs⟩ := List.dropWhile_suffix (l := l) isWs
  rw [← hs]
  exact List.mem_append_right s h1

/-- Decomposition of a successful `split_once(':')`: the left part has no
colon and the input is left, colon, right. -/
theorem splitOnceColon_eq (l a b : Line) (h : splitOnceColon l = some (a, b)) :
    ':' ∉ a ∧ l = a ++ ':' :: b := by
  induction l generalizing a with
  | nil => simp [splitOnceColon] at h
  | cons c rest ih =>
    by_cases hc : c = ':'
    · subst hc
      simp only [splitOnceColon, if_true, Option.some_inj] at h
      obtain ⟨ha, hb⟩ := Prod.mk.injEq _ _ _ _ ▸ h
      rw [← ha, ← hb]
      simp
    · simp only [splitOnceColon, if_neg hc] at h
      cases hrec : splitOnceColon rest with
      | none => rw [hrec] at h; cases h
      | some p =>
        rw [hrec] at h
        obtain ⟨a', b'⟩ := p
        rw [Option.map_some', Option.some_inj] at h
        obtain ⟨ha, hb⟩ := Prod.mk.injEq _ _ _ _ ▸ h
        subst hb
        obtain ⟨hne, heq⟩ := ih a' hrec
        rw [← ha]
        constructor
        · intro hmem
          rcases List.mem_cons.mp hmem with h3 | h3
          · exact hc h3.symm
          · exact hne h3
        · rw [heq]
          simp

/-- Reassembly: splitting `a ++ ':' :: b` at the first colon gives back
`(a, b)` when `a` has no colon. -/
theorem splitOnceColon_append (a b : Line) (h : ':' ∉ a) :
    splitOnceColon (a ++ ':' :: b) = some (a, b) := by
  induction a with
  | nil => simp [splitOnceColon]
  | cons c r ih =>
    have hc : c ≠ ':' := fun hcc => h (hcc ▸ List.mem_cons_self c r)
    have hr : ':' ∉ r := fun hm => h (List.mem_cons_of_mem c hm)
    simp only [List.cons_append, splitOnceColon, if_neg hc, List.append_eq]
    rw [ih hr]
    rfl

/-- `splitCh` never returns an empty list of pieces. -/
theorem splitCh_ne_nil (sep : Char) (l : List Char) : splitCh sep l ≠ [] := by
  cases l with
  | nil => simp [splitCh]
  | cons c r =>
    by_cases hc : c = sep
    · simp [splitCh, hc]
    · simp only [splitCh, if_neg hc]
      cases splitCh sep r <;> simp

/-- A list without the separator is returned as its only piece. -/
theorem splitCh_no_sep (sep : Char) (d : List Char) (h : sep ∉ d) :
    splitCh sep d = [d] := by
  induction d with
  | nil => rfl
  | cons c r ih =>
    have hc : c ≠ sep := fun hcc => h (hcc ▸ List.mem_cons_self c r)
    have hr : sep ∉ r := fun hm => h (List.mem_cons_of_mem c hm)
    simp only [splitCh, if_neg hc, ih hr]

/-- Splitting `d ++ sep :: t` when `d` is separator-free peels off `d`. -/
theorem splitCh_append_sep (sep : Char) (d t : List Char) (h : sep ∉ d) :
    splitCh sep (d ++ sep :: t) = d :: splitCh sep t := by
  induction d with
  | nil => simp [splitCh]
  | cons c r ih =>
    have hc : c ≠ sep := fun hcc => h (hcc ▸ List.mem_cons_self c r)
    have hr : sep ∉ r := fun hm => h (List.mem_cons_of_mem c hm)
    simp only [List.cons_append, splitCh, if_neg hc, List.append_eq]
    rw [ih hr]

/-- No piece of a `splitCh` contains the separator. -/
theorem mem_splitCh_no_sep (sep : Char) (l : List Char) :
    ∀ x ∈ splitCh sep l, sep ∉ x := by
  induction l with
  | nil =>
    intro x hx
    simp only [splitCh, List.mem_singleton] at hx
    subst hx
    simp
  | cons c r ih =>
    intro x hx
    by_cases hc : c = sep
    · subst hc
      simp only [splitCh, if_true, List.mem_cons] at hx
      rcases hx with h | h
      · subst h; simp
      · exact ih x h
    · simp only [splitCh, if_neg hc] at hx
      cases hrec : splitCh sep r with
      | nil => exact absurd hrec (splitCh_ne_nil sep r)
      | cons y ys =>
        rw [hrec] at hx
        rcases List.mem_cons.mp hx with h1 | h1
        · subst h1
          intro hmem
          rcases List.mem_cons.mp hmem with h2 | h2
          · exact hc h2.symm
          · exact ih y (hrec ▸ List.mem_cons_self y ys) h2
        · exact ih x (hrec ▸ List.mem_cons_of_mem y h1)

/-- Every character of a `splitCh` piece is a character of the input. -/
theorem mem_splitCh_subset (sep : Char) (l : List Char) :
    ∀ x ∈ splitCh sep l, ∀ c ∈ x, c ∈ l := by
  induction l with
  | nil =>
    intro x hx c hc
    simp only [splitCh, List.mem_singleton] at hx
    subst hx
    cases hc
  | cons a r ih =>
    intro x hx c hc
    by_cases ha : a = sep
    · subst ha
      simp only [splitCh, if_true, List.mem_cons] at hx
      rcases hx with h | h
      · subst h; cases hc
      · exact List.mem_cons_of_mem a (ih x h c hc)
    · simp only [splitCh, if_neg ha] at hx
      cases hrec : splitCh sep r with
      | nil => exact absurd hrec (splitCh_ne_nil sep r)
      | cons y ys =>
        rw [hrec] at hx
        rcases List.mem_cons.mp hx with h1 | h1
        · subst h1
          rcases List.mem_cons.mp hc with h2 | h2
          · exact h2 ▸ List.mem_cons_self a r
          · exact List.mem_cons_of_mem a
              (ih y (hrec ▸ List.mem_cons_self y ys) c h2)
        · exact List.mem_cons_of_mem a
            (ih x (hrec ▸ List.mem_cons_of_mem y h1) c hc)

/-- Membership from `getLast?`. -/
theorem mem_of_getLast?_eq (l : List Char) (a : Char) (h : l.getLast? = some a) :
    a ∈ l := by
  rcases List.mem_getLast?_eq_getLast (x := a) (l := l) h with ⟨hne, hx⟩
  exact hx ▸ List.getLast_mem hne

/-- Membership from `head?`. -/
theorem mem_of_head?_eq (l : List Char) (a : Char) (h : l.head? = some a) :
    a ∈ l := by
  have := List.eq_cons_of_mem_head? (x := a) (l := l) h
  rw [this]
  exact List.mem_cons_self a _

/-- A line that is non-whitespace throughout and contains no space is
whitespace-free. -/
theorem wsFree_of_onlySp (d : Line) (h1 : ∀ c ∈ d, isWs c = true → c = ' ')
    (h2 : ' ' ∉ d) : wsFree d := by
  intro c hc
  cases hw : isWs c with
  | false => rfl
  | true => exact absurd (h1 c hc hw ▸ hc) h2

/-- The dependency-loop output of a non-empty list of non-empty,
whitespace-free dependencies ends in a non-whitespace character. -/
theorem joinSp_getLast (ds : List Line)
    (h1 : ∀ d ∈ ds, d ≠ []) (h2 : ∀ d ∈ ds, wsFree d) :
    ds = [] ∨ ∃ c, (joinSp ds).getLast? = some c ∧ isWs c = false := by
  induction ds with
  | nil => exact Or.inl rfl
  | cons d ds ih =>
    right
    have hd : d ≠ [] := h1 d (List.mem_cons_self d ds)
    rcases ih (fun x hx => h1 x (List.mem_cons_of_mem d hx))
        (fun x hx => h2 x (List.mem_cons_of_mem d hx)) with hnil | ⟨c, hc, hw⟩
    · subst hnil
      obtain ⟨c, hc⟩ : ∃ c, d.getLast? = some c := by
        cases hgl : d.getLast? with
        | none => exact absurd (List.getLast?_eq_none_iff.mp hgl) hd
        | some c => exact ⟨c, rfl⟩
      refine ⟨c, ?_, h2 d (List.mem_cons_self d []) c (mem_of_getLast?_eq d c hc)⟩
      show ([' '] ++ (d ++ joinSp [])).getLast? = some c
      rw [List.getLast?_append_of_ne_nil _ (by simp [joinSp, hd])]
      simpa [joinSp] using hc
    · have hjne : joinSp ds ≠ [] := by
        intro hj
        rw [hj] at hc
        cases hc
      refine ⟨c, ?_, hw⟩
      show ([' '] ++ (d ++ joinSp ds)).getLast? = some c
      rw [List.getLast?_append_of_ne_nil _ (by simp [hjne]),
        List.getLast?_append_of_ne_nil _ hjne]
      exact hc

/-- Trimming the dependency-loop output of non-empty, whitespace-free
dependencies drops exactly the leading space. -/
theorem trim_joinSp (d : Line) (ds : List Line)
    (h1 : ∀ x ∈ d :: ds, x ≠ []) (h2 : ∀ x ∈ d :: ds, wsFree x) :
    trim (joinSp (d :: ds)) = d ++ joinSp ds := by
  have hd : d ≠ [] := h1 d (List.mem_cons_self d ds)
  have hdw : wsFree d := h2 d (List.mem_cons_self d ds)
  have hhead : ∀ c, (d ++ joinSp ds).head? = some c → isWs c = false := by
    intro c hc
    rw [List.head?_append_of_ne_nil _ hd] at hc
    exact hdw c (mem_of_head?_eq d c hc)
  have hlast : ∀ c, (d ++ joinSp ds).getLast? = some c → isWs c = false := by
    intro c hc
    rcases joinSp_getLast ds (fun x hx => h1 x (List.mem_cons_of_mem d hx))
        (fun x hx => h2 x (List.mem_cons_of_mem d hx)) with hnil | ⟨c2, hc2, hw2⟩
    · subst hnil
      simp only [joinSp, List.append_nil] at hc
      exact hdw c (mem_of_getLast?_eq d c hc)
    · have hjne : joinSp ds ≠ [] := by
        intro hj
        rw [hj] at hc2
        cases hc2
      rw [List.getLast?_append_of_ne_nil _ hjne, hc2] at hc
      cases hc
      exact hw2
  have h3 : trimL (joinSp (d :: ds)) = d ++ joinSp ds := by
    show (' ' :: (d ++ joinSp ds)).dropWhile isWs = d ++ joinSp ds
    rw [List.dropWhile_cons_of_pos (by decide)]
    exact dropWhile_eq_self_of_head _ isWs hhead
  unfold trim
  rw [h3]
  exact trimR_eq_self _ hlast

/-- Splitting the dependency-loop body at spaces recovers the
dependencies, when they are all space-free. -/
theorem splitSp_joinSp (d : Line) (ds : List Line) (hd : ' ' ∉ d)
    (hds : ∀ e ∈ ds, ' ' ∉ e) :
    splitSp (d ++ joinSp ds) = d :: ds := by
  induction ds generalizing d with
  | nil =>
    show splitCh ' ' (d ++ joinSp []) = [d]
    simpa [joinSp] using splitCh_no_sep ' ' d hd
  | cons e ds' ih =>
    show splitCh ' ' (d ++ joinSp (e :: ds')) = d :: e :: ds'
    have hstep : d ++ joinSp (e :: ds') = d ++ ' ' :: (e ++ joinSp ds') := rfl
    rw [hstep, splitCh_append_sep ' ' d _ hd]
    have := ih e (hds e (List.mem_cons_self e ds'))
      (fun x hx => hds x (List.mem_cons_of_mem e hx))
    exact congrArg (d :: ·) this

/-- Inversion of an emitting run of the rewriter: either the trimmed line
was empty or a comment and is emitted as is, or it is a data line whose
target is free of the build segment, emitted in rebuilt form. -/
theorem emit_cases (raw out : Line) (h : rewriteLine raw = some (some out)) :
    (out = trim raw ∧ (out = [] ∨ out.head? = some '#'))
    ∨ (∃ left rest, splitOnceColon (trim raw) = some (left, rest)
        ∧ trim raw ≠ [] ∧ (trim raw).head? ≠ some '#'
        ∧ hasSub buildSeg left = false
        ∧ out = left ++ ':' ::
            joinSp ((depsOf rest).filter (fun d => !hasSub buildSeg d))) := by
  rw [rewrite_line_spec] at h
  unfold c1ClaimLine at h
  by_cases hcond : trim raw = [] ∨ (trim raw).head? = some '#'
  · left
    rw [if_pos (by simpa using hcond)] at h
    have hout : out = trim raw := by
      cases h
      rfl
    subst hout
    exact ⟨rfl, hcond⟩
  · right
    rw [if_neg (by simpa using hcond)] at h
    push_neg at hcond
    cases hsc : splitOnceColon (trim raw) with
    | none =>
      rw [hsc] at h
      cases h
    | some p =>
      obtain ⟨left, rest⟩ := p
      rw [hsc] at h
      dsimp only at h
      by_cases hb : hasSub buildSeg left
      · rw [if_pos hb] at h
        cases h
      · rw [if_neg hb] at h
        refine ⟨left, rest, rfl, hcond.1, hcond.2, by simpa using hb, ?_⟩
        cases h
        rfl

/-- An emitted data line is stable: it is already trimmed, splits back
into its target and its dependency body, its dependencies parse back
exactly, and the rewriter emits it unchanged. -/
theorem data_out_stable (left : Line) (kept : List Line)
    (hnc : ':' ∉ left) (hb : hasSub buildSeg left = false)
    (hheads : ∀ c, left.head? = some c → isWs c = false ∧ c ≠ '#')
    (hkne : ∀ d ∈ kept, d ≠ []) (hkws : ∀ d ∈ kept, wsFree d)
    (hknosp : ∀ d ∈ kept, ' ' ∉ d)
    (hkb : ∀ d ∈ kept, hasSub buildSeg d = false) :
    trim (left ++ ':' :: joinSp kept) = left ++ ':' :: joinSp kept
      ∧ splitOnceColon (left ++ ':' :: joinSp kept) = some (left, joinSp kept)
      ∧ depsOf (joinSp kept) = kept
      ∧ rewriteLine (left ++ ':' :: joinSp kept)
          = some (some (left ++ ':' :: joinSp kept)) := by
  have hheadout : ∀ c0, (left ++ ':' :: joinSp kept).head? = some c0 →
      isWs c0 = false ∧ c0 ≠ '#' := by
    intro c0 hc0
    cases hl : left with
    | nil =>
      rw [hl] at hc0
      simp only [List.nil_append, List.head?_cons, Option.some_inj] at hc0
      subst hc0
      exact ⟨by decide, by decide⟩
    | cons a as =>
      rw [hl, List.head?_append_of_ne_nil (a :: as) (by simp)] at hc0
      simp only [List.head?_cons, Option.some_inj] at hc0
      subst hc0
      exact hheads _ (by rw [hl]; rfl)
  have hlastout : ∀ c0, (left ++ ':' :: joinSp kept).getLast? = some c0 →
      isWs c0 = false := by
    intro c0 hc0
    rcases joinSp_getLast kept hkne hkws with hknil | ⟨c2, hc2, hw2⟩
    · rw [hknil] at hc0
      rw [show left ++ ':' :: joinSp [] = left ++ [':'] by simp [joinSp]] at hc0
      rw [List.getLast?_append_of_ne_nil _ (by simp)] at hc0
      simp only [List.getLast?_singleton, Option.some_inj] at hc0
      subst hc0
      decide
    · have hjne : joinSp kept ≠ [] := by
        intro hj
        rw [hj] at hc2
        cases hc2
      rw [show left ++ ':' :: joinSp kept = left ++ ([':'] ++ joinSp kept) by simp]
        at hc0
      rw [List.getLast?_append_of_ne_nil _ (by simp [hjne]),
        List.getLast?_append_of_ne_nil _ hjne, hc2] at hc0
      cases hc0
      exact hw2
  have htrout : trim (left ++ ':' :: joinSp kept) = left ++ ':' :: joinSp kept :=
    trim_eq_self _ (fun c0 hc0 => (hheadout c0 hc0).1) hlastout
  have hscout : splitOnceColon (left ++ ':' :: joinSp kept)
      = some (left, joinSp kept) := splitOnceColon_append left (joinSp kept) hnc
  have hdeps : depsOf (joinSp kept) = kept := by
    cases hk : kept with
    | nil => rfl
    | cons d ds =>
      unfold depsOf
      rw [show splitSp (trim (joinSp (d :: ds))) = splitSp (d ++ joinSp ds) by
          rw [trim_joinSp d ds (hk ▸ hkne) (hk ▸ hkws)]]
      rw [show splitSp (d ++ joinSp ds) = d :: ds from
          splitSp_joinSp d ds (hknosp d (hk ▸ List.mem_cons_self d ds))
            (fun e he => hknosp e (hk ▸ List.mem_cons_of_mem d he))]
      exact List.filter_eq_self.mpr (fun a ha => by
        have hane : a ≠ [] := hkne a (hk ▸ ha)
        simpa using hane)
  refine ⟨htrout, hscout, hdeps, ?_⟩
  rw [rewrite_line_spec, htrout]
  unfold c1ClaimLine
  have hne2 : left ++ ':' :: joinSp kept ≠ [] := by simp
  have hh2 : (left ++ ':' :: joinSp kept).head? ≠ some '#' := by
    intro hcontr
    exact (hheadout '#' hcontr).2 rfl
  rw [if_neg (by simpa using And.intro hne2 hh2)]
  rw [hscout]
  dsimp only
  rw [if_neg (by simp [hb])]
  rw [hdeps, List.filter_eq_self.mpr (fun a ha => by simp [hkb a ha])]

/-- Every line the rewriter emits from a space-only-whitespace input line
is re-emitted unchanged by a second pass, and, if it is a data line, it is
free of the build segment on both sides of its colon. -/
theorem emit_props (raw out : Line) (hsp : onlySp raw)
    (h : rewriteLine raw = some (some out)) :
    rewriteLine out = some (some out)
      ∧ (∀ left2 rest2, splitOnceColon (trim out) = some (left2, rest2) →
          (trim out).head? ≠ some '#' →
          hasSub buildSeg left2 = false
            ∧ ∀ d ∈ depsOf rest2, hasSub buildSeg d = false) := by
  rcases emit_cases raw out h with ⟨hout, hcase⟩
    | ⟨left, rest, hsc, hraw_ne, hraw_nc, hb, hout⟩
  · have htr : trim out = out := by
      rw [hout]
      exact trim_idem raw
    constructor
    · rw [rewrite_line_spec, htr]
      unfold c1ClaimLine
      rw [if_pos (by simpa using hcase)]
    · intro left2 rest2 hs2 hh2
      rcases hcase with hnil | hcomment
      · rw [htr, hnil] at hs2
        simp [splitOnceColon] at hs2
      · rw [htr] at hh2
        exact absurd hcomment hh2
  · obtain ⟨hnc, heq⟩ := splitOnceColon_eq (trim raw) left rest hsc
    have hkmem : ∀ d ∈ (depsOf rest).filter (fun d => !hasSub buildSeg d),
        d ∈ splitCh ' ' (trim rest) ∧ d ≠ [] ∧ hasSub buildSeg d = false := by
      intro d hd
      have h1 := List.mem_filter.mp hd
      have h2 := List.mem_filter.mp h1.1
      refine ⟨h2.1, ?_, ?_⟩
      · intro hdnil
        rw [hdnil] at h2
        simpa using h2.2
      · simpa using h1.2
    have hknosp : ∀ d ∈ (depsOf rest).filter (fun d => !hasSub buildSeg d),
        ' ' ∉ d := fun d hd =>
      mem_splitCh_no_sep ' ' (trim rest) d (hkmem d hd).1
    have hchar : ∀ d ∈ (depsOf rest).filter (fun d => !hasSub buildSeg d),
        ∀ c ∈ d, c ∈ raw := by
      intro d hd c hc
      have h3 : c ∈ trim rest :=
        mem_splitCh_subset ' ' (trim rest) d (hkmem d hd).1 c hc
      have h5 : c ∈ trim raw := by
        rw [heq]
        exact List.mem_append_right left (List.mem_cons_of_mem ':' (mem_trim rest c h3))
      exact mem_trim raw c h5
    have hkws : ∀ d ∈ (depsOf rest).filter (fun d => !hasSub buildSeg d),
        wsFree d := fun d hd =>
      wsFree_of_onlySp d (fun c hc hw => hsp c (hchar d hd c hc) hw) (hknosp d hd)
    have hkne : ∀ d ∈ (depsOf rest).filter (fun d => !hasSub buildSeg d),
        d ≠ [] := fun d hd => (hkmem d hd).2.1
    have hkb : ∀ d ∈ (depsOf rest).filter (fun d => !hasSub buildSeg d),
        hasSub buildSeg d = false := fun d hd => (hkmem d hd).2.2
    have hheads : ∀ c, left.head? = some c → isWs c = false ∧ c ≠ '#' := by
      intro c hc
      have hh : (trim raw).head? = some c := by
        cases hl : left with
        | nil => rw [hl] at hc; cases hc
        | cons a as =>
          rw [hl] at hc
          rw [heq, hl]
          simpa using hc
      exact ⟨head_trim_false raw c hh,
        fun hcontr => hraw_nc (by rw [hh, hcontr])⟩
    obtain ⟨htr, hsc2, hdeps, hstable⟩ :=
      data_out_stable left ((depsOf rest).filter (fun d => !hasSub buildSeg d))
        hnc hb hheads hkne hkws hknosp hkb
    subst hout
    refine ⟨hstable, ?_⟩
    intro left2 rest2 hs2 _
    rw [htr, hsc2, Option.some_inj] at hs2
    obtain ⟨hl2, hr2⟩ := Prod.mk.injEq _ _ _ _ ▸ hs2
    rw [← hl2, ← hr2]
    refine ⟨hb, ?_⟩
    intro d hd
    rw [hdeps] at hd
    exact hkb d hd

/-- Text-level stability of the rewriter (space-only-whitespace inputs):
the output rewrites to itself, and every output data line is free of the
build segment on both sides of its colon. -/
theorem rewriteText_props (t : List Line) : ∀ (s : List Line),
    (∀ l ∈ t, onlySp l) → rewriteText t = some s →
    rewriteText s = some s
      ∧ ∀ l ∈ s, ∀ left rest, splitOnceColon (trim l) = some (left, rest) →
          (trim l).head? ≠ some '#' →
          hasSub buildSeg left = false
            ∧ ∀ d ∈ depsOf rest, hasSub buildSeg d = false := by
  induction t with
  | nil =>
    intro s _ h
    cases h
    exact ⟨rfl, by intro l hl; cases hl⟩
  | cons l ls ih =>
    intro s hws h
    have hwl : onlySp l := hws l (List.mem_cons_self l ls)
    have hwls : ∀ x ∈ ls, onlySp x := fun x hx => hws x (List.mem_cons_of_mem l hx)
    unfold rewriteText at h
    cases hl : rewriteLine l with
    | none =>
      rw [hl] at h
      cases h
    | some o =>
      cases hr : rewriteText ls with
      | none =>
        rw [hl, hr] at h
        cases o <;> cases h
      | some rest =>
        rw [hl, hr] at h
        cases o with
        | none =>
          dsimp only at h
          cases h
          exact ih s hwls hr
        | some out =>
          dsimp only at h
          cases h
          obtain ⟨hst, hclean⟩ := emit_props l out hwl hl
          obtain ⟨ihst, ihclean⟩ := ih rest hwls hr
          constructor
          · unfold rewriteText
            rw [hst, ihst]
          · intro x hx
            rcases List.mem_cons.mp hx with hx1 | hx1
            · subst hx1
              exact hclean
            · exact ihclean x hx1

/-- C9 (counterexample).  The rewriter is not idempotent: on the line
`"l: x\t /build/y"` the first pass keeps the dependency `"x\t"` (split is
on spaces only) and drops `"/build/y"`, emitting `"l: x\t"`; the second
pass trims the now-trailing tab and emits `"l: x"`, a different output. -/
theorem c9_rewriter_counterexample :
    rewriteText ["l: x\t /build/y".data] = some ["l: x\t".data]
      ∧ rewriteText ["l: x\t".data] = some ["l: x".data]
      ∧ some ["l: x\t".data] ≠ some ["l: x".data] := by
  refine ⟨by decide, by decide, by decide⟩

/-- C9 (amended).  For dependency-info texts in which the only whitespace
character is the plain space, the rewriter is idempotent; after one
application every data line of the output is free of `/build/` on both
sides of its colon; and a data line whose target and dependencies are all
free of `/build/` round-trips to its whitespace-normalised form with all
its dependencies kept, in order. -/
theorem c9_rewriter_idempotent_amended (t s : List Line)
    (hws : ∀ l ∈ t, onlySp l) (h : rewriteText t = some s) :
    rewriteText s = some s
      ∧ (∀ l ∈ s, ∀ left rest, splitOnceColon (trim l) = some (left, rest) →
          (trim l).head? ≠ some '#' →
          hasSub buildSeg left = false
            ∧ ∀ d ∈ depsOf rest, hasSub buildSeg d = false)
      ∧ (∀ raw left rest, splitOnceColon (trim raw) = some (left, rest) →
          trim raw ≠ [] → (trim raw).head? ≠ some '#' →
          hasSub buildSeg left = false →
          (∀ d ∈ depsOf rest, hasSub buildSeg d = false) →
          rewriteLine raw = some (some (left ++ ':' :: joinSp (depsOf rest)))) := by
  obtain ⟨h1, h2⟩ := rewriteText_props t s hws h
  refine ⟨h1, h2, ?_⟩
  intro raw left rest hsc hne hnc hbl hdeps
  rw [rewrite_line_spec]
  unfold c1ClaimLine
  rw [if_neg (by simpa using And.intro hne hnc)]
  rw [hsc]
  dsimp only
  rw [if_neg (by simp [hbl])]
  rw [List.filter_eq_self.mpr (fun a ha => by simp [hdeps a ha])]

/-- C9 (witness). -/
theorem c9_rewriter_amended_witness :
    rewriteText ["a: b".data, "# c".data] = some ["a: b".data, "# c".data] :=
  (c9_rewriter_idempotent_amended ["a: b /build/x".data, "# c".data]
    ["a: b".data, "# c".data] (by decide) (by decide)).1

/-! ## Lemmas about the event-log encoding, towards C10 -/

/-- Stripping a literal from itself followed by anything succeeds. -/
theorem stripLit_append (p r : List Char) : stripLit p (p ++ r) = some r := by
  induction p with
  | nil => rfl
  | cons c ps ih => simp [stripLit, ih]

/-- Hex digits round-trip for values below 16. -/
theorem hexVal_hexDig : ∀ m < 16, hexVal (hexDig m) = some m := by decide

/-- `Char.ofNat` inverts `Char.toNat`. -/
theorem char_ofNat_toNat (c : Char) : Char.ofNat c.toNat = c := by
  rcases c with ⟨⟨n, hn⟩, hv⟩
  simp [Char.ofNat, Char.toNat, hv]
  rfl

/-- One parser step, as an equation (the parser is compiled by
well-founded recursion and does not reduce definitionally). -/
theorem psb_cons (c : Char) (rest : List Char) :
    parseStrBody (c :: rest) =
      (if c = qu then some ([], rest)
      else if c = '\\' then
        match rest with
        | [] => none
        | e :: rest2 =>
          if e = qu then (parseStrBody rest2).map (fun p => (qu :: p.1, p.2))
          else if e = '\\' then (parseStrBody rest2).map (fun p => ('\\' :: p.1, p.2))
          else if e = 'b' then (parseStrBody rest2).map (fun p => ('\x08' :: p.1, p.2))
          else if e = 't' then (parseStrBody rest2).map (fun p => ('\t' :: p.1, p.2))
          else if e = 'n' then (parseStrBody rest2).map (fun p => ('\n' :: p.1, p.2))
          else if e = 'f' then (parseStrBody rest2).map (fun p => ('\x0c' :: p.1, p.2))
          else if e = 'r' then (parseStrBody rest2).map (fun p => ('\r' :: p.1, p.2))
          else if e = 'u' then
            match rest2 with
            | h1 :: h2 :: h3 :: h4 :: rest3 =>
              match hexVal h1, hexVal h2, hexVal h3, hexVal h4 with
              | some a, some b, some c3, some d =>
                (parseStrBody rest3).map
                  (fun p => (Char.ofNat (((a * 16 + b) * 16 + c3) * 16 + d) :: p.1, p.2))
              | _, _, _, _ => none
            | _ => none
          else none
      else (parseStrBody rest).map (fun p => (c :: p.1, p.2))) := by
  rw [parseStrBody.eq_def]

/-- One parser step on an escape sequence (definitional unfolding). -/
theorem parseStrBody_esc2 (e : Char) (t : List Char) :
    parseStrBody ('\\' :: e :: t) =
      (if e = qu then (parseStrBody t).map (fun p => (qu :: p.1, p.2))
      else if e = '\\' then (parseStrBody t).map (fun p => ('\\' :: p.1, p.2))
      else if e = 'b' then (parseStrBody t).map (fun p => ('\x08' :: p.1, p.2))
      else if e = 't' then (parseStrBody t).map (fun p => ('\t' :: p.1, p.2))
      else if e = 'n' then (parseStrBody t).map (fun p => ('\n' :: p.1, p.2))
      else if e = 'f' then (parseStrBody t).map (fun p => ('\x0c' :: p.1, p.2))
      else if e = 'r' then (parseStrBody t).map (fun p => ('\r' :: p.1, p.2))
      else if e = 'u' then
        match t with
        | h1 :: h2 :: h3 :: h4 :: rest3 =>
          match hexVal h1, hexVal h2, hexVal h3, hexVal h4 with
          | some a, some b, some c3, some d =>
            (parseStrBody rest3).map
              (fun p => (Char.ofNat (((a * 16 + b) * 16 + c3) * 16 + d) :: p.1, p.2))
          | _, _, _, _ => none
        | _ => none
      else none) := by
  rw [psb_cons]
  rw [if_neg (by decide), if_pos rfl]

/-- One parser step on an unescaped character (definitional unfolding). -/
theorem parseStrBody_raw (c : Char) (h1 : c ≠ qu) (h2 : c ≠ '\\') (t : List Char) :
    parseStrBody (c :: t) = (parseStrBody t).map (fun p => (c :: p.1, p.2)) := by
  rw [psb_cons, if_neg h1, if_neg h2]

/-- The string-body parser undoes serde_json's escaping. -/
theorem parseStrBody_esc (s r : List Char) :
    parseStrBody (escStr s ++ qu :: r) = some (s, r) := by
  induction s with
  | nil =>
    show parseStrBody (qu :: r) = some ([], r)
    rw [psb_cons, if_pos rfl]
  | cons c s' ih =>
    show parseStrBody ((escChar c ++ escStr s') ++ qu :: r) = some (c :: s', r)
    rw [List.append_assoc]
    unfold escChar
    by_cases h1 : c = qu
    · subst h1
      rw [if_pos rfl]
      show parseStrBody ('\\' :: '"' :: (escStr s' ++ qu :: r)) = some (qu :: s', r)
      rw [parseStrBody_esc2, if_pos (show ('"' : Char) = qu from rfl), ih]
      rfl
    · rw [if_neg h1]
      by_cases h2 : c = '\\'
      · subst h2
        rw [if_pos rfl]
        show parseStrBody ('\\' :: '\\' :: (escStr s' ++ qu :: r)) = some ('\\' :: s', r)
        rw [parseStrBody_esc2, if_neg (by decide), if_pos rfl, ih]
        rfl
      · rw [if_neg h2]
        by_cases h3 : c = '\x08'
        · subst h3
          rw [if_pos rfl]
          show parseStrBody ('\\' :: 'b' :: (escStr s' ++ qu :: r)) = some ('\x08' :: s', r)
          rw [parseStrBody_esc2, if_neg (by decide), if_neg (by decide), if_pos rfl, ih]
          rfl
        · rw [if_neg h3]
          by_cases h4 : c = '\t'
          · subst h4
            rw [if_pos rfl]
            show parseStrBody ('\\' :: 't' :: (escStr s' ++ qu :: r)) = some ('\t' :: s', r)
            rw [parseStrBody_esc2, if_neg (by decide), if_neg (by decide),
              if_neg (by decide), if_pos rfl, ih]
            rfl
          · rw [if_neg h4]
            by_cases h5 : c = '\n'
            · subst h5
              rw [if_pos rfl]
              show parseStrBody ('\\' :: 'n' :: (escStr s' ++ qu :: r)) = some ('\n' :: s', r)
              rw [parseStrBody_esc2, if_neg (by decide), if_neg (by decide),
                if_neg (by decide), if_neg (by decide), if_pos rfl, ih]
              rfl
            · rw [if_neg h5]
              by_cases h6 : c = '\x0c'
              · subst h6
                rw [if_pos rfl]
                show parseStrBody ('\\' :: 'f' :: (escStr s' ++ qu :: r))
                  = some ('\x0c' :: s', r)
                rw [parseStrBody_esc2, if_neg (by decide), if_neg (by decide),
                  if_neg (by decide), if_neg (by decide), if_neg (by decide),
                  if_pos rfl, ih]
                rfl
              · rw [if_neg h6]
                by_cases h7 : c = '\r'
                · subst h7
                  rw [if_pos rfl]
                  show parseStrBody ('\\' :: 'r' :: (escStr s' ++ qu :: r))
                    = some ('\r' :: s', r)
                  rw [parseStrBody_esc2, if_neg (by decide), if_neg (by decide),
                    if_neg (by decide), if_neg (by decide), if_neg (by decide),
                    if_neg (by decide), if_pos rfl, ih]
                  rfl
                · rw [if_neg h7]
                  by_cases h8 : c.toNat < 32
                  · rw [if_pos h8]
                    have hd1 : hexVal (hexDig (c.toNat / 16)) = some (c.toNat / 16) :=
                      hexVal_hexDig _ (by omega)
                    have hd2 : hexVal (hexDig (c.toNat % 16)) = some (c.toNat % 16) :=
                      hexVal_hexDig _ (by omega)
                    show parseStrBody ('\\' :: 'u' :: '0' :: '0' ::
                      hexDig (c.toNat / 16) :: hexDig (c.toNat % 16) ::
                      (escStr s' ++ qu :: r)) = some (c :: s', r)
                    rw [parseStrBody_esc2, if_neg (by decide), if_neg (by decide),
                      if_neg (by decide), if_neg (by decide), if_neg (by decide),
                      if_neg (by decide), if_neg (by decide), if_pos rfl]
                    dsimp only
                    rw [show hexVal '0' = some 0 from rfl, hd1, hd2, ih]
                    dsimp only [Option.map_some]
                    have harith : ((0 * 16 + 0) * 16 + c.toNat / 16) * 16 + c.toNat % 16
                        = c.toNat := by omega
                    rw [harith, char_ofNat_toNat]
                    rfl
                  · rw [if_neg h8]
                    show parseStrBody (c :: (escStr s' ++ qu :: r)) = some (c :: s', r)
                    rw [parseStrBody_raw c h1 h2, ih]
                    rfl

/-- Boolean tokens round-trip. -/
theorem parseBoolTok_append (b : Bool) (r : List Char) :
    parseBoolTok (boolTok b ++ r) = some (b, r) := by
  cases b <;> simp [parseBoolTok, boolTok, stripLit]

/-- `takeWhile` passes over a block that satisfies the predicate. -/
theorem takeWhile_append_all (p : Char → Bool) (a b : List Char)
    (h : ∀ c ∈ a, p c = true) :
    List.takeWhile p (a ++ b) = a ++ List.takeWhile p b := by
  induction a with
  | nil => rfl
  | cons c cs ih =>
    simp [List.takeWhile_cons, h c (List.mem_cons_self c cs),
      ih (fun x hx => h x (List.mem_cons_of_mem c hx))]

/-- `dropWhile` passes over a block that satisfies the predicate. -/
theorem dropWhile_append_all (p : Char → Bool) (a b : List Char)
    (h : ∀ c ∈ a, p c = true) :
    List.dropWhile p (a ++ b) = List.dropWhile p b := by
  induction a with
  | nil => rfl
  | cons c cs ih =>
    simp [List.dropWhile_cons, h c (List.mem_cons_self c cs),
      ih (fun x hx => h x (List.mem_cons_of_mem c hx))]

/-- Number tokens round-trip when followed by a closing brace. -/
theorem parseNumTok_append (d : String) (hne : ¬ d.data.isEmpty)
    (hnum : ∀ c ∈ d.data, isNumChar c = true) (r : List Char) :
    parseNumTok (d.data ++ rbrace :: r) = some (d, rbrace :: r) := by
  have ht : List.takeWhile isNumChar (d.data ++ rbrace :: r) = d.data := by
    rw [takeWhile_append_all isNumChar d.data _ hnum]
    simp [List.takeWhile_cons, isNumChar, rbrace]
  have hd : List.dropWhile isNumChar (d.data ++ rbrace :: r) = rbrace :: r := by
    rw [dropWhile_append_all isNumChar d.data _ hnum]
    simp [List.dropWhile_cons, isNumChar, rbrace]
  simp only [parseNumTok, ht, hd]
  rw [if_neg (by simpa using hne)]

/-- Stripping a literal from exactly itself leaves nothing. -/
theorem stripLit_self (p : List Char) : stripLit p p = some [] := by
  simpa using stripLit_append p []

/-- The field parser undoes the field encoder on finite durations. -/
theorem parseCopyFields_enc (mangleKey name at_ from_ : String)
    (m : Bool) (dur : String) (hne : ¬ dur.data.isEmpty)
    (hnum : ∀ c ∈ dur.data, isNumChar c = true) :
    parseCopyFields mangleKey
        (encCopyFields name at_ from_ mangleKey m (F64Val.finite dur))
      = some (name, at_, from_, m, F64Val.finite dur) := by
  unfold parseCopyFields encCopyFields
  simp only [durTok, List.append_assoc, List.cons_append, List.nil_append,
    List.singleton_append]
  rw [stripLit_append]
  dsimp only
  rw [parseStrBody_esc]
  dsimp only
  rw [stripLit_append]
  dsimp only
  rw [parseStrBody_esc]
  dsimp only
  rw [stripLit_append]
  dsimp only
  rw [parseStrBody_esc]
  dsimp only
  rw [stripLit_append]
  dsimp only
  rw [parseBoolTok_append]
  dsimp only
  rw [stripLit_append]
  dsimp only
  rw [parseNumTok_append dur hne hnum]
  dsimp only
  rw [stripLit_self]
  dsimp only
  rfl

/-- The field parser fails on the encoding of a non-finite duration:
serde_json renders it as `null`, which is not a number token. -/
theorem parseCopyFields_null (mangleKey name at_ from_ : String) (m : Bool) :
    parseCopyFields mangleKey
        (encCopyFields name at_ from_ mangleKey m F64Val.nonFinite)
      = none := by
  unfold parseCopyFields encCopyFields
  simp only [durTok, List.append_assoc, List.cons_append, List.nil_append,
    List.singleton_append]
  rw [stripLit_append]
  dsimp only
  rw [parseStrBody_esc]
  dsimp only
  rw [stripLit_append]
  dsimp only
  rw [parseStrBody_esc]
  dsimp only
  rw [stripLit_append]
  dsimp only
  rw [parseStrBody_esc]
  dsimp only
  rw [stripLit_append]
  dsimp only
  rw [parseBoolTok_append]
  dsimp only
  rw [stripLit_append]
  dsimp only
  rw [show parseNumTok ['n', 'u', 'l', 'l', rbrace, rbrace] = none from by decide]

/-- The first variant tag does not match the second variant's opening. -/
theorem tag12 (body : List Char) :
    stripLit (tagOpen "PulledCrateOutputs") (tagOpen "PushedCrateOutputs" ++ body)
      = none := rfl

/-- The first variant tag does not match the third variant's opening. -/
theorem tag13 (body : List Char) :
    stripLit (tagOpen "PulledCrateOutputs")
      (tagOpen "PulledBuildScriptOutputs" ++ body) = none := rfl

/-- The first variant tag does not match the fourth variant's opening. -/
theorem tag14 (body : List Char) :
    stripLit (tagOpen "PulledCrateOutputs")
      (tagOpen "PushedBuildScriptOutputs" ++ body) = none := rfl

/-- The second variant tag does not match the third variant's opening. -/
theorem tag23 (body : List Char) :
    stripLit (tagOpen "PushedCrateOutputs")
      (tagOpen "PulledBuildScriptOutputs" ++ body) = none := rfl

/-- The second variant tag does not match the fourth variant's opening. -/
theorem tag24 (body : List Char) :
    stripLit (tagOpen "PushedCrateOutputs")
      (tagOpen "PushedBuildScriptOutputs" ++ body) = none := rfl

/-- The third variant tag does not match the fourth variant's opening. -/
theorem tag34 (body : List Char) :
    stripLit (tagOpen "PulledBuildScriptOutputs")
      (tagOpen "PushedBuildScriptOutputs" ++ body) = none := rfl

/-- The line parser undoes the line encoder on well-formed events. -/
theorem parseLogLine_encode (e : CacheLogLine) (hwf : logWf e) :
    parseLogLine (encodeLogLine e) = some e := by
  cases e with
  | pulledCrateOutputs ev =>
    obtain ⟨n, a, f, m, d⟩ := ev
    cases d with
    | nonFinite => exact False.elim hwf
    | finite dr =>
      obtain ⟨hne, hnum⟩ := (hwf : durWf (F64Val.finite dr))
      unfold parseLogLine encodeLogLine
      rw [stripLit_append]
      dsimp only
      rw [parseCopyFields_enc _ _ _ _ _ _ hne hnum]
      rfl
  | pushedCrateOutputs ev =>
    obtain ⟨n, a, f, m, d⟩ := ev
    cases d with
    | nonFinite => exact False.elim hwf
    | finite dr =>
      obtain ⟨hne, hnum⟩ := (hwf : durWf (F64Val.finite dr))
      unfold parseLogLine encodeLogLine
      rw [tag12, stripLit_append]
      dsimp only
      rw [parseCopyFields_enc _ _ _ _ _ _ hne hnum]
      rfl
  | pulledBuildScriptOutputs ev =>
    obtain ⟨n, a, f, m, d⟩ := ev
    cases d with
    | nonFinite => exact False.elim hwf
    | finite dr =>
      obtain ⟨hne, hnum⟩ := (hwf : durWf (F64Val.finite dr))
      unfold parseLogLine encodeLogLine
      rw [tag13, tag23, stripLit_append]
      dsimp only
      rw [parseCopyFields_enc _ _ _ _ _ _ hne hnum]
      rfl
  | pushedBuildScriptOutputs ev =>
    obtain ⟨n, a, f, m, d⟩ := ev
    cases d with
    | nonFinite => exact False.elim hwf
    | finite dr =>
      obtain ⟨hne, hnum⟩ := (hwf : durWf (F64Val.finite dr))
      unfold parseLogLine encodeLogLine
      rw [tag14, tag24, tag34, stripLit_append]
      dsimp only
      rw [parseCopyFields_enc _ _ _ _ _ _ hne hnum]
      rfl

/-- Hex digit characters are never newlines or carriage returns. -/
theorem hexDig_ne (m : Nat) : hexDig m ≠ '\n' ∧ hexDig m ≠ '\r' := by
  by_cases h : m < 16
  · exact (by decide : ∀ m < 16, hexDig m ≠ '\n' ∧ hexDig m ≠ '\r') m h
  · have h0 : hexDig m = '0' := by
      unfold hexDig
      apply List.getD_eq_default
      have : ("0123456789abcdef".data).length = 16 := by decide
      omega
    rw [h0]
    exact ⟨by decide, by decide⟩

/-- Number-token characters are never newlines or carriage returns. -/
theorem isNumChar_ne (x : Char) (h : isNumChar x = true) : x ≠ '\n' ∧ x ≠ '\r' := by
  constructor
  · intro he
    subst he
    simp [isNumChar] at h
  · intro he
    subst he
    simp [isNumChar] at h

/-- Escaped characters contain no newline or carriage return. -/
theorem escChar_ne (c x : Char) (hx : x ∈ escChar c) : x ≠ '\n' ∧ x ≠ '\r' := by
  unfold escChar at hx
  split_ifs at hx with h1 h2 h3 h4 h5 h6 h7 h8
  · simp only [List.mem_cons, List.not_mem_nil, or_false] at hx
    rcases hx with rfl | rfl
    · exact ⟨by decide, by decide⟩
    · exact ⟨by decide, by decide⟩
  · simp only [List.mem_cons, List.not_mem_nil, or_false] at hx
    rcases hx with rfl | rfl
    · exact ⟨by decide, by decide⟩
    · exact ⟨by decide, by decide⟩
  · simp only [List.mem_cons, List.not_mem_nil, or_false] at hx
    rcases hx with rfl | rfl
    · exact ⟨by decide, by decide⟩
    · exact ⟨by decide, by decide⟩
  · simp only [List.mem_cons, List.not_mem_nil, or_false] at hx
    rcases hx with rfl | rfl
    · exact ⟨by decide, by decide⟩
    · exact ⟨by decide, by decide⟩
  · simp only [List.mem_cons, List.not_mem_nil, or_false] at hx
    rcases hx with rfl | rfl
    · exact ⟨by decide, by decide⟩
    · exact ⟨by decide, by decide⟩
  · simp only [List.mem_cons, List.not_mem_nil, or_false] at hx
    rcases hx with rfl | rfl
    · exact ⟨by decide, by decide⟩
    · exact ⟨by decide, by decide⟩
  · simp only [List.mem_cons, List.not_mem_nil, or_false] at hx
    rcases hx with rfl | rfl
    · exact ⟨by decide, by decide⟩
    · exact ⟨by decide, by decide⟩
  · simp only [List.mem_cons, List.not_mem_nil, or_false] at hx
    rcases hx with rfl | rfl | rfl | rfl | rfl | rfl
    · exact ⟨by decide, by decide⟩
    · exact ⟨by decide, by decide⟩
    · exact ⟨by decide, by decide⟩
    · exact ⟨by decide, by decide⟩
    · exact hexDig_ne _
    · exact hexDig_ne _
  · simp only [List.mem_singleton] at hx
    subst hx
    exact ⟨h5, h7⟩

/-- Escaped strings contain no newline or carriage return. -/
theorem escStr_ne (s : List Char) (x : Char) (hx : x ∈ escStr s) :
    x ≠ '\n' ∧ x ≠ '\r' := by
  unfold escStr at hx
  rw [List.mem_flatten] at hx
  obtain ⟨l, hl, hxl⟩ := hx
  rw [List.mem_map] at hl
  obtain ⟨c, _, hc⟩ := hl
  exact escChar_ne c x (hc ▸ hxl)

/-- Newline- and carriage-return-freedom is preserved by append. -/
theorem crlf_append (a b : List Char)
    (ha : ∀ x ∈ a, x ≠ '\n' ∧ x ≠ '\r') (hb : ∀ x ∈ b, x ≠ '\n' ∧ x ≠ '\r') :
    ∀ x ∈ a ++ b, x ≠ '\n' ∧ x ≠ '\r' := by
  intro x hx
  rcases List.mem_append.mp hx with h | h
  · exact ha x h
  · exact hb x h

/-- Encoded log lines contain no newline or carriage return. -/
theorem encodeLogLine_ne (e : CacheLogLine) (hwf : logWf e) :
    ∀ x ∈ encodeLogLine e, x ≠ '\n' ∧ x ≠ '\r' := by
  have hfields : ∀ (name at_ from_ : String) (mk : String) (m : Bool) (dur : F64Val),
      durWf dur → (∀ x ∈ fieldLitMangle mk, x ≠ '\n' ∧ x ≠ '\r') →
      ∀ x ∈ encCopyFields name at_ from_ mk m dur, x ≠ '\n' ∧ x ≠ '\r' := by
    intro name at_ from_ mk m dur hdur hmk
    unfold encCopyFields
    simp only [List.append_assoc]
    refine crlf_append _ _ (by decide) ?_
    refine crlf_append _ _ (fun x hx => escStr_ne _ x hx) ?_
    refine crlf_append _ _ (by decide) ?_
    refine crlf_append _ _ (by decide) ?_
    refine crlf_append _ _ (fun x hx => escStr_ne _ x hx) ?_
    refine crlf_append _ _ (by decide) ?_
    refine crlf_append _ _ (by decide) ?_
    refine crlf_append _ _ (fun x hx => escStr_ne _ x hx) ?_
    refine crlf_append _ _ (by decide) ?_
    refine crlf_append _ _ hmk ?_
    refine crlf_append _ _ ?_ ?_
    · cases m
      · exact (by decide : ∀ x ∈ "false".data, x ≠ '\n' ∧ x ≠ '\r')
      · exact (by decide : ∀ x ∈ "true".data, x ≠ '\n' ∧ x ≠ '\r')
    refine crlf_append _ _ (by decide) ?_
    refine crlf_append _ _ ?_ (by decide)
    cases dur with
    | nonFinite => exact False.elim hdur
    | finite dr =>
      obtain ⟨hne2, hnum2⟩ := (hdur : durWf (F64Val.finite dr))
      exact fun x hx => isNumChar_ne x (hnum2 x hx)
  cases e with
  | pulledCrateOutputs ev =>
    exact crlf_append _ _ (by decide) (hfields _ _ _ _ _ _ hwf (by decide))
  | pushedCrateOutputs ev =>
    exact crlf_append _ _ (by decide) (hfields _ _ _ _ _ _ hwf (by decide))
  | pulledBuildScriptOutputs ev =>
    exact crlf_append _ _ (by decide) (hfields _ _ _ _ _ _ hwf (by decide))
  | pushedBuildScriptOutputs ev =>
    exact crlf_append _ _ (by decide) (hfields _ _ _ _ _ _ hwf (by decide))

/-- `stripCr` is a no-op on lines without carriage returns. -/
theorem stripCr_eq_self (a : List Char) (h : ∀ x ∈ a, x ≠ '\r') : stripCr a = a := by
  unfold stripCr
  rw [if_neg]
  intro hc
  exact h '\r' (mem_of_getLast?_eq a '\r' hc) rfl

/-- `str::lines` peels off a newline-terminated first line. -/
theorem linesOf_append_line (a rest : List Char)
    (ha : ∀ x ∈ a, x ≠ '\n' ∧ x ≠ '\r') :
    linesOf (a ++ '\n' :: rest) = a :: linesOf rest := by
  have hsep : '\n' ∉ a := fun hm => (ha '\n' hm).1 rfl
  have hcr : stripCr a = a := stripCr_eq_self a (fun x hx => (ha x hx).2)
  obtain ⟨p, ps', hps⟩ : ∃ p ps', splitNl rest = p :: ps' := by
    cases h : splitNl rest with
    | nil => exact absurd h (splitCh_ne_nil '\n' rest)
    | cons p ps' => exact ⟨p, ps', rfl⟩
  unfold linesOf
  rw [show splitNl (a ++ '\n' :: rest) = a :: splitNl rest from
    splitCh_append_sep '\n' a rest hsep, hps]
  dsimp only
  rw [List.getLast?_cons_cons]
  by_cases hl : (p :: ps').getLast? = some []
  · rw [if_pos hl, if_pos hl, List.dropLast_cons₂]
    simp [hcr]
  · rw [if_neg hl, if_neg hl, List.dropLast_cons₂]
    simp [hcr]

/-- The content of the log file after a sequence of appends. -/
theorem foldl_writeLogLine (ls : List CacheLogLine) (init : List Char) :
    ls.foldl writeLogLine init
      = init ++ (ls.map (fun e => encodeLogLine e ++ ['\n'])).flatten := by
  induction ls generalizing init with
  | nil => simp
  | cons e es ih => simp [List.foldl_cons, writeLogLine, ih, List.append_assoc]

/-- Reading back the full log content recovers the line sequence. -/
theorem readLog_flatten (ls : List CacheLogLine) (hwf : ∀ e ∈ ls, logWf e) :
    linesOf ((ls.map (fun e => encodeLogLine e ++ ['\n'])).flatten)
        = ls.map encodeLogLine
      ∧ readLog ((ls.map (fun e => encodeLogLine e ++ ['\n'])).flatten)
        = some ls := by
  induction ls with
  | nil => exact ⟨rfl, rfl⟩
  | cons e es ih =>
    have he := hwf e (List.mem_cons_self e es)
    obtain ⟨ih1, ih2⟩ := ih (fun x hx => hwf x (List.mem_cons_of_mem e hx))
    have hline : linesOf (encodeLogLine e
          ++ '\n' :: (es.map (fun e => encodeLogLine e ++ ['\n'])).flatten)
        = encodeLogLine e
          :: linesOf ((es.map (fun e => encodeLogLine e ++ ['\n'])).flatten) :=
      linesOf_append_line _ _ (encodeLogLine_ne e he)
    have hshape : ((e :: es).map (fun e => encodeLogLine e ++ ['\n'])).flatten
        = encodeLogLine e
          ++ '\n' :: (es.map (fun e => encodeLogLine e ++ ['\n'])).flatten := by
      simp
    constructor
    · rw [hshape, hline, ih1]
      rfl
    · unfold readLog at ih2 ⊢
      rw [hshape, hline]
      unfold readLines
      rw [parseLogLine_encode e he, ih2]

set_option maxRecDepth 4000 in
/-- C10 (counterexample to the unrestricted claim).  An event whose
`duration_secs` is NaN or an infinity is serialised by serde_json as
`null`; `read_log` then fails to deserialise the line, so writing the
event and reading the log back yields an error (`none`), not the event
list.  The round trip therefore does not hold for every `CacheLogLine`. -/
theorem c10_log_round_trip_counterexample :
    readLog ([CacheLogLine.pulledCrateOutputs
        ⟨"u", "t", "c", false, F64Val.nonFinite⟩].foldl writeLogLine []) = none
      ∧ (none : Option (List CacheLogLine))
        ≠ some [CacheLogLine.pulledCrateOutputs
          ⟨"u", "t", "c", false, F64Val.nonFinite⟩] := by
  have hparse : parseLogLine (encodeLogLine (CacheLogLine.pulledCrateOutputs
      ⟨"u", "t", "c", false, F64Val.nonFinite⟩)) = none := by
    unfold parseLogLine encodeLogLine
    rw [stripLit_append]
    dsimp only
    rw [parseCopyFields_null]
    rfl
  refine ⟨?_, by simp⟩
  have h1 : ([CacheLogLine.pulledCrateOutputs
        ⟨"u", "t", "c", false, F64Val.nonFinite⟩].foldl writeLogLine [])
      = encodeLogLine (CacheLogLine.pulledCrateOutputs
          ⟨"u", "t", "c", false, F64Val.nonFinite⟩) ++ '\n' :: [] := by
    simp [writeLogLine]
  rw [h1]
  unfold readLog
  rw [linesOf_append_line _ [] (by decide)]
  unfold readLines
  rw [hparse]

/-- C10 (amended: restricted to well-formed events).  For events carrying
finite `duration_secs` values (whose shortest-decimal rendering is a
non-empty token of number characters, as serde_json produces), the event
log round-trips: writing any sequence of such events with
`write_log_line` and reading the file back with `read_log` returns
exactly that sequence; each call appends exactly one line (the file
content after the writes is precisely the encoded lines, one per event,
each newline-terminated), and every call leaves the previous content as
an unmodified prefix.  With a NaN or infinite duration the read fails
instead. -/
theorem c10_log_round_trip (ls : List CacheLogLine) (hwf : ∀ e ∈ ls, logWf e) :
    readLog (ls.foldl writeLogLine []) = some ls
      ∧ linesOf (ls.foldl writeLogLine []) = ls.map encodeLogLine
      ∧ (∀ file e, ∃ t, file ++ t = writeLogLine file e) := by
  obtain ⟨h1, h2⟩ := readLog_flatten ls hwf
  rw [foldl_writeLogLine, List.nil_append]
  refine ⟨h2, h1, ?_⟩
  intro file e
  exact ⟨encodeLogLine e ++ ['\n'], by simp [writeLogLine]⟩

/-- C10 (witness). -/
theorem c10_log_round_trip_witness :
    readLog ([CacheLogLine.pulledCrateOutputs
        ⟨"serde_json-1a2b", "2024-01-01T00:00:00Z", "local cache", false,
          F64Val.finite "1.5"⟩,
      CacheLogLine.pushedBuildScriptOutputs
        ⟨"cc-9f", "2024-01-02T03:04:05Z", "local cache", true,
          F64Val.finite "0.25e-3"⟩].foldl
        writeLogLine [])
      = some [CacheLogLine.pulledCrateOutputs
        ⟨"serde_json-1a2b", "2024-01-01T00:00:00Z", "local cache", false,
          F64Val.finite "1.5"⟩,
      CacheLogLine.pushedBuildScriptOutputs
        ⟨"cc-9f", "2024-01-02T03:04:05Z", "local cache", true,
          F64Val.finite "0.25e-3"⟩] :=
  (c10_log_round_trip _ (by decide)).1

end Hope
